import Mathlib

/-!
Verification of the column-oriented SSTable builder of the vidardb engine
(`table/column_table_builder.cc`, `db/file_iter.cc`) via a shallow embedding:
the builder's mutable `Rep` becomes an explicit state record, machine
integers become `Nat` with explicit reductions modulo `2 ^ w` where C++
wraps, and fallible operations carry an explicit `Status`.
-/

namespace Vidardb

/-- Error sum type mirroring `vidardb::Status` restricted to the kinds the
builder code produces (`Status::OK`, `Status::InvalidArgument`,
`Status::IOError`). -/
inductive Status where
  | ok : Status
  | invalidArgument (msg : String) : Status
  | ioError (msg : String) : Status
deriving DecidableEq, Repr

/-- `Status::ok()`. -/
def Status.isOk : Status → Bool
  | .ok => true
  | _ => false

/-- `BlockHandle`: the `(offset, size)` pair locating a block in a file. -/
structure BlockHandle where
  offset : Nat
  size : Nat
deriving DecidableEq, Repr

/-! ## Byte-level codecs (`util/coding.h`) -/

/-- Big-endian fixed-width byte string of `n`: the byte at index `k`
(counting from the left among `w` bytes) is `n / 256 ^ (w - 1 - k) % 256`. -/
def toBE : Nat → Nat → List Nat
  | 0, _ => []
  | w + 1, n => (n / 256 ^ w % 256) :: toBE w n

/-- `PutFixed64BigEndian`: the 8-byte big-endian row-position encoding used
by `ColumnTableBuilder::Add`. -/
def putFixed64BE (n : Nat) : List Nat := toBE 8 n

/-- Little-endian fixed-width byte string of `n`. -/
def toLE : Nat → Nat → List Nat
  | 0, _ => []
  | w + 1, n => n % 256 :: toLE w (n / 256)

/-- `EncodeFixed32` (little-endian), used for the block-trailer CRC. -/
def encodeFixed32LE (n : Nat) : List Nat := toLE 4 n

/-- `EncodeFixed64` (little-endian), used for the footer magic number. -/
def encodeFixed64LE (n : Nat) : List Nat := toLE 8 n

/-- LEB128 varint encoding (`PutVarint32` / `PutVarint64`). -/
def encodeVarint (n : Nat) : List Nat :=
  if h : n < 128 then [n]
  else (n % 128 + 128) :: encodeVarint (n / 128)
  termination_by n
  decreasing_by
    exact Nat.div_lt_self (Nat.pos_of_ne_zero (by omega)) (by omega)

/-- `BlockHandle::EncodeTo`: varint offset followed by varint size. -/
def handleEncodeTo (h : BlockHandle) : List Nat :=
  encodeVarint h.offset ++ encodeVarint h.size

/-! ## Lexicographic byte order (the bytewise comparator) -/

/-- Strict lexicographic (memcmp-style) order on byte strings; a proper
prefix is smaller. -/
def lexLt : List Nat → List Nat → Bool
  | _, [] => false
  | [], _ :: _ => true
  | a :: as, b :: bs => if a < b then true else if b < a then false else lexLt as bs

/-- Reflexive closure of `lexLt`. -/
def lexLe (a b : List Nat) : Bool := decide (a = b) || lexLt a b

theorem lexLt_append_lt (p : List Nat) {x y : Nat} (xs ys : List Nat) (h : x < y) :
    lexLt (p ++ x :: xs) (p ++ y :: ys) = true := by
  induction p with
  | nil => simp [lexLt, h]
  | cons a p ih => simp [lexLt, ih]

theorem toBE_length (w n : Nat) : (toBE w n).length = w := by
  induction w generalizing n with
  | zero => rfl
  | succ w ih => simp [toBE, ih]

theorem toBE_mod (w n : Nat) : toBE w (n % 256 ^ w) = toBE w n := by
  induction w generalizing n with
  | zero => rfl
  | succ w ih =>
    have hhead : n % 256 ^ (w + 1) / 256 ^ w % 256 = n / 256 ^ w % 256 := by
      have h1 : n % (256 ^ w * 256) / 256 ^ w = n / 256 ^ w % 256 :=
        Nat.mod_mul_right_div_self n (256 ^ w) 256
      rw [pow_succ, h1, Nat.mod_mod_of_dvd _ dvd_rfl]
    have htail : toBE w (n % 256 ^ (w + 1)) = toBE w n := by
      have h2 : n % 256 ^ (w + 1) % 256 ^ w = n % 256 ^ w :=
        Nat.mod_mod_of_dvd _ (pow_dvd_pow 256 (Nat.le_succ w))
      calc toBE w (n % 256 ^ (w + 1))
          = toBE w (n % 256 ^ (w + 1) % 256 ^ w) := (ih _).symm
        _ = toBE w (n % 256 ^ w) := by rw [h2]
        _ = toBE w n := ih n
    simp [toBE, hhead, htail]

theorem lexLt_toBE (w : Nat) : ∀ i j : Nat, i < 256 ^ w → j < 256 ^ w → i < j →
    lexLt (toBE w i) (toBE w j) = true := by
  induction w with
  | zero => intro i j hi hj hij; simp [pow_zero] at hi hj; omega
  | succ w ih =>
    intro i j hi hj hij
    have hiw : i / 256 ^ w < 256 := by
      apply Nat.div_lt_of_lt_mul
      rw [← pow_succ]; exact hi
    have hjw : j / 256 ^ w < 256 := by
      apply Nat.div_lt_of_lt_mul
      rw [← pow_succ]; exact hj
    have hdivle : i / 256 ^ w ≤ j / 256 ^ w :=
      Nat.div_le_div_right (Nat.le_of_lt hij)
    rcases Nat.lt_or_ge (i / 256 ^ w) (j / 256 ^ w) with hlt | hge
    · simp [toBE, lexLt, Nat.mod_eq_of_lt hiw, Nat.mod_eq_of_lt hjw, hlt]
    · have heq : i / 256 ^ w = j / 256 ^ w := Nat.le_antisymm hdivle hge
      have hpos : 0 < 256 ^ w := Nat.pos_pow_of_pos w (by omega)
      have hi2 : 256 ^ w * (i / 256 ^ w) + i % 256 ^ w = i := Nat.div_add_mod i (256 ^ w)
      have hj2 : 256 ^ w * (j / 256 ^ w) + j % 256 ^ w = j := Nat.div_add_mod j (256 ^ w)
      have hmodlt : i % 256 ^ w < j % 256 ^ w := by rw [← heq] at hj2; omega
      have htails : lexLt (toBE w (i % 256 ^ w)) (toBE w (j % 256 ^ w)) = true :=
        ih _ _ (Nat.mod_lt _ hpos) (Nat.mod_lt _ hpos) hmodlt
      rw [toBE_mod, toBE_mod] at htails
      simp [toBE, lexLt, Nat.mod_eq_of_lt hiw, Nat.mod_eq_of_lt hjw, heq, htails]

theorem putFixed64BE_length (n : Nat) : (putFixed64BE n).length = 8 :=
  toBE_length 8 n

theorem putFixed64BE_lt {i j : Nat} (hij : i < j) (hj : j < 2 ^ 64) :
    lexLt (putFixed64BE i) (putFixed64BE j) = true := by
  have hb : (2 : Nat) ^ 64 = 256 ^ 8 := by norm_num
  exact lexLt_toBE 8 i j (by omega) (by rw [← hb]; exact hj) hij

/-! ## CRC32C and the trailer mask (`util/crc32c.h`)

Modelled from the spec: `util/crc32c.cc` is not under `src/`; the spec fixes
the algorithm as CRC32C (Castagnoli, reflected polynomial `0x82F63B78`) and
gives the mask formula `((crc >> 15) | (crc << 17)) + 0xa282ead8` on 32-bit
words. -/

/-- One bit step of the reflected CRC32C division. -/
def crcRound (c : Nat) : Nat :=
  if c % 2 = 1 then (c / 2) ^^^ 0x82f63b78 else c / 2

/-- Absorb one input byte into the running CRC state (eight bit steps). -/
def crcByte (c b : Nat) : Nat :=
  crcRound (crcRound (crcRound (crcRound
    (crcRound (crcRound (crcRound (crcRound (c ^^^ b))))))))

/-- Fold the CRC state over a byte string. -/
def crcRaw (init : Nat) (data : List Nat) : Nat := data.foldl crcByte init

/-- `crc32c::Extend(init, data)`: pre- and post-conditioning with
`0xffffffff` around the raw division. -/
def crc32cExtend (init : Nat) (data : List Nat) : Nat :=
  crcRaw (init ^^^ 0xffffffff) data ^^^ 0xffffffff

/-- `crc32c::Value(data) = Extend(0, data)`. -/
def crc32cValue (data : List Nat) : Nat := crc32cExtend 0 data

/-- `crc32c::Mask`: rotate right by 15 (equivalently left by 17) and add
`0xa282ead8`, on 32-bit words. -/
def maskCrc (c : Nat) : Nat :=
  (((c >>> 15) ||| (c <<< 17 % 2 ^ 32)) + 0xa282ead8) % 2 ^ 32

theorem crc32cExtend_extend (init : Nat) (a b : List Nat) :
    crc32cExtend (crc32cExtend init a) b = crc32cExtend init (a ++ b) := by
  unfold crc32cExtend crcRaw
  rw [Nat.xor_cancel_right, List.foldl_append]

/-- Extending the CRC of `a` by `b` computes the CRC of `a ∥ b`; this is how
`WriteRawBlock` covers the compression-type byte. -/
theorem crc32cValue_append (a b : List Nat) :
    crc32cExtend (crc32cValue a) b = crc32cValue (a ++ b) :=
  crc32cExtend_extend 0 a b

/-! ## Shortest separator and short successor

Modelled from the spec: the comparator implementation
(`util/comparator.cc`) is not under `src/`; §4.2 of the spec describes
`FindShortestSeparator` as replacing the last key of a block with the
shortest byte string that is `≥` it and `<` the first key of the next
block, and `FindShortSuccessor` as producing the shortest successor, both
for the bytewise (memcmp) comparator. -/

/-- Length of the common prefix of two byte strings. -/
def cpl : List Nat → List Nat → Nat
  | a :: as, b :: bs => if a = b then cpl as bs + 1 else 0
  | _, _ => 0

/-- Byte at index `i`, defaulting to 0 out of range. -/
def byteAt (l : List Nat) (i : Nat) : Nat := l.getD i 0

/-- `FindShortestSeparator` of the bytewise comparator: if the first
differing byte of `start` can be bumped while staying below `limit`,
truncate there and bump it; otherwise keep `start` unchanged. -/
def findShortestSeparator (start limit : List Nat) : List Nat :=
  let d := cpl start limit
  if d < start.length ∧ d < limit.length then
    let db := byteAt start d
    if db < 255 ∧ db + 1 < byteAt limit d then start.take d ++ [db + 1]
    else start
  else start

/-- `FindShortSuccessor` of the bytewise comparator: bump the first
non-`0xff` byte and truncate after it; a key of all `0xff` bytes is kept
unchanged. -/
def findShortSuccessor : List Nat → List Nat
  | [] => []
  | b :: rest => if b = 255 then b :: findShortSuccessor rest else [b + 1]

theorem cpl_take_eq : ∀ a b : List Nat, a.take (cpl a b) = b.take (cpl a b) := by
  intro a
  induction a with
  | nil => intro b; cases b <;> simp [cpl]
  | cons x as ih =>
    intro b
    cases b with
    | nil => simp [cpl]
    | cons y bs =>
      by_cases h : x = y
      · simp [cpl, h, ih bs]
      · simp [cpl, h]

theorem cpl_getD_ne : ∀ a b : List Nat, cpl a b < a.length → cpl a b < b.length →
    byteAt a (cpl a b) ≠ byteAt b (cpl a b) := by
  intro a
  induction a with
  | nil => intro b h _; simp at h
  | cons x as ih =>
    intro b ha hb
    cases b with
    | nil => simp [cpl] at hb
    | cons y bs =>
      by_cases h : x = y
      · simp only [cpl, h, if_true] at ha hb ⊢
        simpa [byteAt] using ih bs (by simpa using ha) (by simpa using hb)
      · simp [cpl, h, byteAt]

theorem drop_eq_byteAt_cons : ∀ (l : List Nat) (d : Nat), d < l.length →
    l.drop d = byteAt l d :: l.drop (d + 1) := by
  intro l
  induction l with
  | nil => intro d h; simp at h
  | cons x xs ih =>
    intro d h
    cases d with
    | zero => simp [byteAt]
    | succ d => simpa [byteAt] using ih d (by simpa using h)

theorem list_decompose (l : List Nat) (d : Nat) (h : d < l.length) :
    l = l.take d ++ byteAt l d :: l.drop (d + 1) := by
  conv_lhs => rw [← List.take_append_drop d l]
  rw [drop_eq_byteAt_cons l d h]

/-- `FindShortestSeparator` either keeps the key unchanged or truncates at
the first differing byte and bumps it. -/
theorem findShortestSeparator_cases (start limit : List Nat) :
    findShortestSeparator start limit = start ∨
    (cpl start limit < start.length ∧ cpl start limit < limit.length ∧
     byteAt start (cpl start limit) + 1 < byteAt limit (cpl start limit) ∧
     findShortestSeparator start limit =
       start.take (cpl start limit) ++ [byteAt start (cpl start limit) + 1]) := by
  simp only [findShortestSeparator]
  split
  next h1 =>
    split
    next h2 => exact Or.inr ⟨h1.1, h1.2, h2.2, rfl⟩
    next h2 => exact Or.inl rfl
  next h1 => exact Or.inl rfl

/-- The separator never falls below the key it replaces. -/
theorem findShortestSeparator_ge (start limit : List Nat) :
    lexLe start (findShortestSeparator start limit) = true := by
  rcases findShortestSeparator_cases start limit with hE | ⟨hlen, _, _, hE⟩
  · simp [hE, lexLe]
  · have hS := list_decompose start (cpl start limit) hlen
    have h5 : lexLt
        (start.take (cpl start limit) ++
          byteAt start (cpl start limit) :: start.drop (cpl start limit + 1))
        (start.take (cpl start limit) ++ [byteAt start (cpl start limit) + 1])
        = true :=
      lexLt_append_lt _ _ _ (Nat.lt_succ_self _)
    rw [← hS] at h5
    simp [hE, lexLe, h5]

/-- The separator stays strictly below the first key of the next block. -/
theorem findShortestSeparator_lt (start limit : List Nat)
    (h : lexLt start limit = true) :
    lexLt (findShortestSeparator start limit) limit = true := by
  rcases findShortestSeparator_cases start limit with hE | ⟨_, hlenL, hbump, hE⟩
  · rw [hE]; exact h
  · have hTake : start.take (cpl start limit) = limit.take (cpl start limit) :=
      cpl_take_eq start limit
    have hL := list_decompose limit (cpl start limit) hlenL
    rw [← hTake] at hL
    have h5 : lexLt
        (start.take (cpl start limit) ++ [byteAt start (cpl start limit) + 1])
        (start.take (cpl start limit) ++
          byteAt limit (cpl start limit) :: limit.drop (cpl start limit + 1))
        = true :=
      lexLt_append_lt _ _ _ hbump
    rw [← hL] at h5
    rw [hE]; exact h5

/-- The separator is never longer than the key it replaces. -/
theorem findShortestSeparator_length (start limit : List Nat) :
    (findShortestSeparator start limit).length ≤ start.length := by
  rcases findShortestSeparator_cases start limit with hE | ⟨hlen, _, _, hE⟩
  · rw [hE]
  · rw [hE]; simp [List.length_take]; omega

/-- The short successor never falls below the key it replaces. -/
theorem findShortSuccessor_ge (key : List Nat) :
    lexLe key (findShortSuccessor key) = true := by
  induction key with
  | nil => simp [findShortSuccessor, lexLe]
  | cons b rest ih =>
    by_cases hb : b = 255
    · simp only [findShortSuccessor, hb, if_true]
      rcases Bool.or_eq_true_iff.mp ih with heq | hlt
      · simp only [lexLe, decide_eq_true_eq] at heq
        simp [lexLe, hb, ← heq]
      · simp [lexLe, lexLt, hb, hlt]
    · simp [findShortSuccessor, hb, lexLe, lexLt]

/-- The short successor is never longer than the key it replaces. -/
theorem findShortSuccessor_length (key : List Nat) :
    (findShortSuccessor key).length ≤ key.length := by
  induction key with
  | nil => simp [findShortSuccessor]
  | cons b rest ih =>
    by_cases hb : b = 255
    · simpa [findShortSuccessor, hb] using ih
    · simp [findShortSuccessor, hb]

/-! ## On-disk framing constants and serializations (`table/format.h`) -/

/-- `kNoCompression`. -/
def kNoCompression : Nat := 0

/-- `kBlockTrailerSize`: 1 type byte plus a 4-byte masked CRC. -/
def kBlockTrailerSize : Nat := 5

/-- Modelled from the spec: `kCompressionSizeLimit` is declared in
`table/format.h`, which is not under `src/`; only the comparison against it
in `WriteBlock` is. Its exact value is immaterial to the theorems below. -/
def kCompressionSizeLimit : Nat := 2 ^ 31

/-- `kColumnTableMagicNumber`. -/
def kColumnTableMagicNumber : Nat := 0x88e241b785f4cfff

/-- Metaindex key of the column meta block (`kColumnBlock`). -/
def kColumnBlockKey : List Nat := "vidardb.column".data.map Char.toNat

/-- Metaindex key of the properties block (`kPropertiesBlock`). -/
def kPropertiesBlockKey : List Nat := "vidardb.properties".data.map Char.toNat

/-- Modelled from the spec: `BlockBuilder::Finish`
(`table/block_builder.cc` is not under `src/`) serializes the accumulated
entries into a self-contained buffer; §4.1 gives a length-prefixed entry
encoding plus a restart array. The claims below never inspect these bytes,
so restart bookkeeping is dropped: each entry is emitted as
`varint(key_len) · key · varint(value_len) · value`, followed by the entry
count. -/
def blockFinish (entries : List (List Nat × List Nat)) : List Nat :=
  entries.foldr
    (fun e acc =>
      encodeVarint e.1.length ++ e.1 ++ encodeVarint e.2.length ++ e.2 ++ acc)
    (encodeVarint entries.length)

/-- Modelled from the spec (§6): the column-meta block body is
`u8 is_main · varint32 column_count · (varint32 col_id · varint64 size)*`
(`MetaColumnBlockBuilder` is not under `src/`). -/
def metaColumnBlockBytes (isMain : Bool) (sizes : List Nat) : List Nat :=
  (if isMain then 1 else 0) :: (encodeVarint sizes.length ++
    ((List.range sizes.length).zip sizes).foldr
      (fun p acc => encodeVarint (p.1 + 1) ++ encodeVarint p.2 ++ acc) [])

/-- A 45-byte footer prefix: two zero-padded 20-byte block handles plus
5 reserved bytes, preceding the 8-byte magic (53 bytes in total, §6).
`Footer::EncodeTo` is not under `src/`; modelled from the spec. -/
def padTo20 (l : List Nat) : List Nat := l ++ List.replicate (20 - l.length) 0

/-- `Footer::EncodeTo`: metaindex handle, index handle, padding, magic. -/
def footerBytes (metaH indexH : BlockHandle) : List Nat :=
  padTo20 (handleEncodeTo metaH) ++ padTo20 (handleEncodeTo indexH) ++
    List.replicate 5 0 ++ encodeFixed64LE kColumnTableMagicNumber

/-! ## Files and configuration -/

/-- A `WritableFileWriter` together with the injected environment behavior:
`writeOk` says whether appends (and buffer flushes) on this descriptor
succeed. `Sync`/`Close` results are ignored by the builder, so they are
modelled as flag updates. -/
structure FileW where
  bytes : List Nat
  writeOk : Bool
  synced : Bool
  closed : Bool
deriving DecidableEq, Repr

/-- `WritableFileWriter::Append`. -/
def fileAppend (f : FileW) (d : List Nat) : FileW × Status :=
  if f.writeOk then ({ f with bytes := f.bytes ++ d }, Status.ok)
  else (f, Status.ioError "Append")

/-- `WritableFileWriter::Flush` (buffer flush; no observable byte change). -/
def fileFlushStatus (f : FileW) : Status :=
  if f.writeOk then Status.ok else Status.ioError "Flush"

/-- The table-level configuration the builder closes over: the column
count, the `Splitter`, the `FlushBlockPolicy` (fed the pending block's
entries and the incoming pair), the configured compression type, the
abstract codec (`none` models an unsupported or failing codec), and the
environment's disposition of each subcolumn file descriptor. -/
structure TableConfig where
  columnCount : Nat
  split : List Nat → List (List Nat)
  policy : List (List Nat × List Nat) → List Nat → List Nat → Bool
  compressionType : Nat
  compress : List Nat → Option (List Nat)
  subFileOk : Nat → Bool

/-! ## The builder state (`ColumnTableBuilder::Rep`) -/

/-- The state of one `ColumnTableBuilder::Rep` (main or subcolumn). The
pending data block is kept as its entry list (`data_block`), and `written`
is the history of every pair ever passed to `data_block->Add` — the
observation C1 and C2 quantify over; `Flush` resets `dataBlock` but never
`written`. `numEntries`, `numDataBlocks`, `dataSize` mirror
`props.num_entries`, `props.num_data_blocks`, `props.data_size`. -/
structure BuilderRep where
  mainColumn : Bool
  file : FileW
  offset : Nat
  status : Status
  dataBlock : List (List Nat × List Nat)
  written : List (List Nat × List Nat)
  indexEntries : List (List Nat × BlockHandle)
  lastKey : List Nat
  numEntries : Nat
  numDataBlocks : Nat
  dataSize : Nat
  closed : Bool
  pendingHandle : BlockHandle
deriving DecidableEq, Repr

/-- A freshly constructed `Rep` over a file whose appends succeed iff
`writeOk`. -/
def initRep (main : Bool) (writeOk : Bool) : BuilderRep :=
  { mainColumn := main
    file := { bytes := [], writeOk := writeOk, synced := false, closed := false }
    offset := 0
    status := Status.ok
    dataBlock := []
    written := []
    indexEntries := []
    lastKey := []
    numEntries := 0
    numDataBlocks := 0
    dataSize := 0
    closed := false
    pendingHandle := ⟨0, 0⟩ }

/-- A main `ColumnTableBuilder` together with its owned subcolumn
builders (`rep_->builders`; subcolumn builders own no builders of their
own, so the recursion is flattened). -/
structure CTBuilder where
  rep : BuilderRep
  subBuilders : List BuilderRep
deriving DecidableEq, Repr

/-- A fresh main builder (before the first `Add`, no subcolumn builders). -/
def initBuilder (writeOk : Bool) : CTBuilder :=
  { rep := initRep true writeOk, subBuilders := [] }

/-- Default rep used with `List.getD`. -/
def dRep : BuilderRep := initRep false true

/-- Default pair used with `List.getD`. -/
def dPair : BuilderRep × List Nat := (dRep, [])

/-- `ColumnTableBuilder::status()`: the first non-OK subcolumn status,
otherwise the builder's own. -/
def ctbStatusAux (r : BuilderRep) (subs : List BuilderRep) : Status :=
  match subs.find? (fun s => !s.status.isOk) with
  | some s => s.status
  | none => r.status

/-- `status()` of the main builder. -/
def ctbStatus (b : CTBuilder) : Status := ctbStatusAux b.rep b.subBuilders

/-- `ok()` over a rep and its subcolumn builders. -/
def ctbOkAux (r : BuilderRep) (subs : List BuilderRep) : Bool :=
  (ctbStatusAux r subs).isOk

/-- `ColumnTableBuilder::ok() { return status().ok(); }`. -/
def ctbOk (b : CTBuilder) : Bool := (ctbStatus b).isOk

/-! ## Write path (`WriteRawBlock`, `WriteBlock`, `Flush`) -/

/-- `ColumnTableBuilder::WriteRawBlock`: record the handle at the current
offset, append the body, then append the 5-byte trailer (type byte plus
little-endian masked CRC32C of body-then-type), and advance the offset by
body size plus `kBlockTrailerSize` on success. -/
def writeRawBlock (r : BuilderRep) (contents : List Nat) (ctype : Nat) :
    BuilderRep × BlockHandle :=
  let handle : BlockHandle := ⟨r.offset, contents.length⟩
  let app1 := fileAppend r.file contents
  if app1.2.isOk then
    let crc := crc32cExtend (crc32cValue contents) [ctype]
    let trailer := ctype :: encodeFixed32LE (maskCrc crc)
    let app2 := fileAppend app1.1 trailer
    ({ r with
        file := app2.1
        status := app2.2
        offset :=
          if app2.2.isOk then r.offset + contents.length + kBlockTrailerSize
          else r.offset },
      handle)
  else ({ r with file := app1.1, status := app1.2 }, handle)

/-- `GoodCompressionRatio`: compressed to less than 87.5% of raw. -/
def goodCompressionRatio (compressedSize rawSize : Nat) : Bool :=
  compressedSize < rawSize - rawSize / 8

/-- `CompressBlock`: returns the compressed contents and the effective
type; falls back to the raw bytes with `kNoCompression` when the type is
`kNoCompression`, the codec is unsupported or fails (`none`), or the ratio
is not good enough. -/
def compressBlock (cfg : TableConfig) (raw : List Nat) : List Nat × Nat :=
  if cfg.compressionType = kNoCompression then (raw, kNoCompression)
  else
    match cfg.compress raw with
    | some compressed =>
        if goodCompressionRatio compressed.length raw.length then
          (compressed, cfg.compressionType)
        else (raw, kNoCompression)
    | none => (raw, kNoCompression)

/-- The body and type byte `WriteBlock` hands to `WriteRawBlock`: blocks of
at least `kCompressionSizeLimit` bytes skip compression unconditionally. -/
def blockPayload (cfg : TableConfig) (raw : List Nat) : List Nat × Nat :=
  if raw.length < kCompressionSizeLimit then compressBlock cfg raw
  else (raw, kNoCompression)

/-- `ColumnTableBuilder::WriteBlock` on raw contents. -/
def writeBlockRaw (cfg : TableConfig) (r : BuilderRep) (raw : List Nat) :
    BuilderRep × BlockHandle :=
  writeRawBlock r (blockPayload cfg raw).1 (blockPayload cfg raw).2

/-- The body of `ColumnTableBuilder::Flush` past its guards: serialize and
write the pending block into `pending_handle`, reset the block, flush the
file buffer when still OK, then update `data_size` and
`num_data_blocks` (the last two update even after a failed write, as in the
source). -/
def flushCore (cfg : TableConfig) (r : BuilderRep) : BuilderRep :=
  if r.dataBlock.isEmpty then r
  else
    let w := writeBlockRaw cfg r (blockFinish r.dataBlock)
    let r2 := { w.1 with dataBlock := [], pendingHandle := w.2 }
    let r3 :=
      if r2.status.isOk then { r2 with status := fileFlushStatus r2.file }
      else r2
    { r3 with dataSize := r3.offset, numDataBlocks := r3.numDataBlocks + 1 }

/-- `Flush` called on a subcolumn builder, whose `ok()` sees only its own
status (it has no subcolumn builders). -/
def subFlush (cfg : TableConfig) (r : BuilderRep) : BuilderRep :=
  if r.status.isOk then flushCore cfg r else r

/-- `Flush` called on the main builder, whose `ok()` also consults every
subcolumn builder's status. -/
def mainFlush (cfg : TableConfig) (b : CTBuilder) : CTBuilder :=
  if ctbOk b then { b with rep := flushCore cfg b.rep } else b

/-- `IndexBuilder::AddIndexEntry`: shorten the block's last key against the
next block's first key (or take its short successor at the end of the
table), store the shortened key back into `last_key`, and append the
`(key, pending_handle)` pair to the index block. -/
def addIndexEntryFn (r : BuilderRep) (nextKey : Option (List Nat)) : BuilderRep :=
  let s :=
    match nextKey with
    | some nb => findShortestSeparator r.lastKey nb
    | none => findShortSuccessor r.lastKey
  { r with lastKey := s, indexEntries := r.indexEntries ++ [(s, r.pendingHandle)] }

/-! ## Add path (`Add`, `CreateSubcolumnBuilders`, `AddInSubcolumnBuilders`) -/

/-- `CreateSubcolumnBuilders`: one fresh non-main builder per column, each
over its own writable file (`NewWritableFile` is modelled as succeeding;
the environment's `subFileOk` flag decides whether later appends do). -/
def createSubs (cfg : TableConfig) : List BuilderRep :=
  (List.range cfg.columnCount).map (fun i => initRep false (cfg.subFileOk i))

/-- The loop body of `AddInSubcolumnBuilders` over the builders paired with
their split values: a builder whose own `ok()` is false aborts the loop,
leaving the remaining builders untouched; otherwise the subcolumn's flush
policy is consulted (sealing its block and growing its index on demand) and
`(pos, value)` is appended — even when the flush just failed, as in the
source. -/
def addSubsLoop (cfg : TableConfig) (pos : List Nat) :
    List (BuilderRep × List Nat) → List BuilderRep
  | [] => []
  | (r, v) :: rest =>
    if r.status.isOk then
      let shouldFlush := cfg.policy r.dataBlock pos v
      let r1 :=
        if shouldFlush then
          let rf := subFlush cfg r
          if rf.status.isOk then addIndexEntryFn rf (some pos) else rf
        else r
      let r2 :=
        { r1 with
            lastKey := pos
            dataBlock := r1.dataBlock ++ [(pos, v)]
            written := r1.written ++ [(pos, v)]
            numEntries := r1.numEntries + 1 }
      r2 :: addSubsLoop cfg pos rest
    else r :: rest.map Prod.fst

/-- Pair each subcolumn builder with its split value
(`vals.empty() ? Slice() : vals[i]`). -/
def pairSubs (subs : List BuilderRep) (vals : List (List Nat)) :
    List (BuilderRep × List Nat) :=
  if vals.isEmpty then subs.map (fun r => (r, ([] : List Nat)))
  else subs.zip vals

/-- `AddInSubcolumnBuilders`: split the value; a non-empty split whose
arity differs from `column_count` latches `InvalidArgument` into the main
builder's status and writes nothing to the subcolumns; an empty split
distributes empty values. -/
def addInSubcolumnBuilders (cfg : TableConfig) (b : CTBuilder)
    (pos value : List Nat) : CTBuilder :=
  let vals := cfg.split value
  if vals ≠ [] ∧ vals.length ≠ cfg.columnCount then
    { b with rep :=
        { b.rep with status := Status.invalidArgument "table_options.column_count" } }
  else
    { b with subBuilders := addSubsLoop cfg pos (pairSubs b.subBuilders vals) }

/-- The main-column half of `ColumnTableBuilder::Add` (everything up to and
including `data_block->Add(key, pos)` and the `props` updates): lazily
create the subcolumn builders; encode the row position as the big-endian
`num_entries` before increment; seal the current block and emit its
shortened index entry when the flush policy fires; append `(key, pos)` to
the main block. -/
def ctbAddMain (cfg : TableConfig) (b : CTBuilder) (key : List Nat) :
    CTBuilder :=
  let b1 :=
    if b.subBuilders.isEmpty then { b with subBuilders := createSubs cfg }
    else b
  let pos := putFixed64BE b1.rep.numEntries
  let shouldFlush := cfg.policy b1.rep.dataBlock key pos
  let b2 :=
    if shouldFlush then
      let bf := mainFlush cfg b1
      if ctbOk bf then { bf with rep := addIndexEntryFn bf.rep (some key) }
      else bf
    else b1
  { b2 with rep :=
      { b2.rep with
          lastKey := key
          dataBlock := b2.rep.dataBlock ++ [(key, pos)]
          written := b2.rep.written ++ [(key, pos)]
          numEntries := b2.rep.numEntries + 1 } }

/-- `ColumnTableBuilder::Add` on the main builder: no-op unless `ok()`;
otherwise run the main-column half and then distribute `(pos, value)` to
the subcolumn builders. -/
def ctbAdd (cfg : TableConfig) (b : CTBuilder) (key value : List Nat) :
    CTBuilder :=
  if ctbOk b then
    addInSubcolumnBuilders cfg (ctbAddMain cfg b key)
      (putFixed64BE b.rep.numEntries) value
  else b

/-- A whole write workload: fold `Add` over a list of `(key, value)`
pairs. -/
def runAdds (cfg : TableConfig) (b : CTBuilder)
    (ops : List (List Nat × List Nat)) : CTBuilder :=
  ops.foldl (fun acc kv => ctbAdd cfg acc kv.1 kv.2) b

/-! ## Finish path -/

/-- `Finish` specialized to a subcolumn builder (`main_column = false`: the
sub-builder loop and the sync/close loop are skipped, and every `ok()` is
the builder's own status). Emits, while OK: the column meta block (with
`is_main = false` and zero columns), the properties block, the metaindex
block, the index block (through the compression path), and the footer. -/
def subFinish (cfg : TableConfig) (r0 : BuilderRep) : BuilderRep :=
  let emptyBlock := r0.dataBlock.isEmpty
  let ra := subFlush cfg r0
  let rb := { ra with closed := true }
  let rc :=
    if rb.status.isOk ∧ ¬emptyBlock then addIndexEntryFn rb none else rb
  let idxContents :=
    blockFinish (rc.indexEntries.map (fun e => (e.1, handleEncodeTo e.2)))
  let step1 :=
    if rc.status.isOk then
      let w1 := writeRawBlock rc (metaColumnBlockBytes rc.mainColumn []) kNoCompression
      let w2 := writeRawBlock w1.1 (propsBlockBytes w1.1) kNoCompression
      (w2.1, [(kColumnBlockKey, handleEncodeTo w1.2),
              (kPropertiesBlockKey, handleEncodeTo w2.2)])
    else (rc, [])
  let step2 :=
    if step1.1.status.isOk then
      let w1 := writeRawBlock step1.1 (blockFinish step1.2) kNoCompression
      let w2 := writeBlockRaw cfg w1.1 idxContents
      (w2.1, w1.2, w2.2)
    else (step1.1, (⟨0, 0⟩ : BlockHandle), (⟨0, 0⟩ : BlockHandle))
  let rd := step2.1
  if rd.status.isOk then
    let fb := footerBytes step2.2.1 step2.2.2
    let app := fileAppend rd.file fb
    { rd with
        file := app.1
        status := app.2
        offset := if app.2.isOk then rd.offset + fb.length else rd.offset }
  else rd
where
  /-- Modelled from the spec: the properties block body
  (`PropertyBlockBuilder`, `table/meta_blocks.cc`, is not under `src/`);
  its contents are never inspected by the claims. -/
  propsBlockBytes (r : BuilderRep) : List Nat :=
    encodeVarint r.numEntries ++ encodeVarint r.dataSize ++
      encodeVarint r.numDataBlocks

/-- The loop at the head of the main builder's `Finish`: finish each
subcolumn builder in order, storing its returned status back; the first
non-OK result aborts the loop (the remaining builders stay unfinished). -/
def finishSubsLoop (cfg : TableConfig) :
    List BuilderRep → List BuilderRep × Option Status
  | [] => ([], none)
  | r :: rest =>
    let rf := subFinish cfg r
    if rf.status.isOk then
      let tail := finishSubsLoop cfg rest
      (rf :: tail.1, tail.2)
    else (rf :: rest, some rf.status)

/-- `ColumnTableBuilder::Finish` on the main builder: finish subcolumns
first (returning the first non-OK status immediately), seal the last data
block, emit the final index entry, the column meta block (`is_main = true`
with the subcolumn file sizes), the properties block, the metaindex block,
the index block, and the footer; finally sync and close each subcolumn
file whose builder status is OK. The main file is never synced or
closed. -/
def ctbFinish (cfg : TableConfig) (b : CTBuilder) : CTBuilder × Status :=
  match finishSubsLoop cfg b.subBuilders with
  | (subs, some err) => ({ b with subBuilders := subs }, err)
  | (subs, none) =>
    let b1 : CTBuilder := { rep := b.rep, subBuilders := subs }
    let emptyBlock := b1.rep.dataBlock.isEmpty
    let b2 := mainFlush cfg b1
    let rb := { b2.rep with closed := true }
    let rc :=
      if ctbOkAux rb subs ∧ ¬emptyBlock then addIndexEntryFn rb none else rb
    let idxContents :=
      blockFinish (rc.indexEntries.map (fun e => (e.1, handleEncodeTo e.2)))
    let step1 :=
      if ctbOkAux rc subs then
        let w1 := writeRawBlock rc
          (metaColumnBlockBytes rc.mainColumn (subs.map (fun s => s.offset)))
          kNoCompression
        let w2 := writeRawBlock w1.1 (subFinish.propsBlockBytes w1.1) kNoCompression
        (w2.1, [(kColumnBlockKey, handleEncodeTo w1.2),
                (kPropertiesBlockKey, handleEncodeTo w2.2)])
      else (rc, [])
    let step2 :=
      if ctbOkAux step1.1 subs then
        let w1 := writeRawBlock step1.1 (blockFinish step1.2) kNoCompression
        let w2 := writeBlockRaw cfg w1.1 idxContents
        (w2.1, w1.2, w2.2)
      else (step1.1, (⟨0, 0⟩ : BlockHandle), (⟨0, 0⟩ : BlockHandle))
    let rd :=
      if ctbOkAux step2.1 subs then
        let fb := footerBytes step2.2.1 step2.2.2
        let app := fileAppend step2.1.file fb
        { step2.1 with
            file := app.1
            status := app.2
            offset := if app.2.isOk then step2.1.offset + fb.length
                      else step2.1.offset }
      else step2.1
    let subsSynced := subs.map (fun s =>
      if s.status.isOk then
        { s with file := { s.file with synced := true, closed := true } }
      else s)
    ({ rep := rd, subBuilders := subsSynced }, rd.status)

/-- `ColumnTableBuilder::NumEntries`. -/
def ctbNumEntries (b : CTBuilder) : Nat := b.rep.numEntries

/-- `ColumnTableBuilder::FileSize` (main file only). -/
def ctbFileSize (b : CTBuilder) : Nat := b.rep.offset

/-! ## `FileIter` (`db/file_iter.cc`) -/

/-- A child iterator of `FileIter` (one table reader per file at the
level), abstracted to its `Valid()` observation. -/
structure FileIterChild where
  valid : Bool
deriving DecidableEq, Repr

/-- The `FileIter` state: the children vector and the current file index
`cur_`. -/
structure FileIterState where
  children : List FileIterChild
  cur : Nat
deriving DecidableEq, Repr

/-- `FileIter::Valid`: false on an empty children vector, otherwise
`children_[cur_]->Valid()`. The vector access is unchecked in the source,
so an out-of-range `cur_` is undefined behavior, modelled as `none`. -/
def fileIterValid (it : FileIterState) : Option Bool :=
  if it.children.isEmpty then some false
  else (it.children.get? it.cur).map FileIterChild.valid

/-- `FileIter::SeekToFirst`: position at index 0 (no-op when empty). -/
def fileIterSeekToFirst (it : FileIterState) : FileIterState :=
  if it.children.isEmpty then it else { it with cur := 0 }

/-- `FileIter::Next`: advance `cur_` unconditionally, with no bounds
check. -/
def fileIterNext (it : FileIterState) : FileIterState :=
  { it with cur := it.cur + 1 }

/-! ## Concrete test fixtures -/

/-- A two-column configuration whose flush policy never seals blocks. -/
def cfgW : TableConfig :=
  { columnCount := 2
    split := fun v => if v.isEmpty then [] else [v, v]
    policy := fun _ _ _ => false
    compressionType := kNoCompression
    compress := fun _ => none
    subFileOk := fun _ => true }

/-- Like `cfgW` but sealing the pending block whenever it is nonempty. -/
def cfgF : TableConfig :=
  { cfgW with policy := fun entries _ _ => !entries.isEmpty }

/-- A two-record workload. -/
def opsW : List (List Nat × List Nat) := [([1], [7]), ([2], [8])]

/-- The builder state after one `Add` under the sealing policy. -/
def bAfterOneF : CTBuilder := runAdds cfgF (initBuilder true) [([1], [7])]

/-- The builder state after one `Add` under the non-sealing policy. -/
def bAfterOneW : CTBuilder := runAdds cfgW (initBuilder true) [([1], [7])]

/-- A builder whose main status has latched an `InvalidArgument` while its
single subcolumn builder is healthy. -/
def bC6 : CTBuilder :=
  { rep :=
      { initRep true true with
          status := Status.invalidArgument "table_options.column_count" }
    subBuilders := [initRep false true] }

/-- A subcolumn builder whose file descriptor failed, with the resulting
latched `IOError`. -/
def subBadC7 : BuilderRep :=
  { initRep false false with status := Status.ioError "Append" }

/-- A main builder with one failed and one healthy subcolumn builder. -/
def bC7 : CTBuilder :=
  { rep := initRep true true, subBuilders := [subBadC7, initRep false true] }

/-- A main builder with a single healthy subcolumn builder. -/
def bC7ok : CTBuilder :=
  { rep := initRep true true, subBuilders := [initRep false true] }

/-- The inductive invariant behind the column-alignment property: the main
builder's `written` history records `putFixed64BE j` as the value of its
`j`-th entry, every subcolumn's `written` history records `putFixed64BE j`
as the key of its `j`-th entry, subcolumn histories never outrun the main
one, they are exactly in step while the builder is `ok()`, and the
subcolumn vector is either fully created or still empty with no entries
added. -/
def Inv (cfg : TableConfig) (b : CTBuilder) : Prop :=
  b.rep.written.length = b.rep.numEntries ∧
  (∀ j, j < b.rep.numEntries →
      (b.rep.written.getD j ([], [])).2 = putFixed64BE j) ∧
  (∀ i, i < b.subBuilders.length →
      (b.subBuilders.getD i dRep).written.length
          = (b.subBuilders.getD i dRep).numEntries ∧
      (b.subBuilders.getD i dRep).numEntries ≤ b.rep.numEntries ∧
      (∀ j, j < (b.subBuilders.getD i dRep).numEntries →
        ((b.subBuilders.getD i dRep).written.getD j ([], [])).1
            = putFixed64BE j)) ∧
  (ctbOk b = true → ∀ i, i < b.subBuilders.length →
      (b.subBuilders.getD i dRep).numEntries = b.rep.numEntries) ∧
  (b.subBuilders.length = cfg.columnCount ∨
      (b.subBuilders = [] ∧ b.rep.numEntries = 0))

/-! ## Basic status lemmas -/

@[simp] theorem Status.isOk_ok : Status.ok.isOk = true := rfl

@[simp] theorem Status.isOk_invalidArgument (m : String) :
    (Status.invalidArgument m).isOk = false := rfl

@[simp] theorem Status.isOk_ioError (m : String) :
    (Status.ioError m).isOk = false := rfl

theorem Status.isOk_iff (s : Status) : s.isOk = true ↔ s = Status.ok := by
  cases s <;> simp [Status.isOk]

/-! ## Characterization of `WriteRawBlock` -/

theorem writeRawBlock_of_writeOk (r : BuilderRep) (c : List Nat) (t : Nat)
    (h : r.file.writeOk = true) :
    writeRawBlock r c t =
      ({ r with
          file := { r.file with
            bytes := r.file.bytes ++ c ++
              t :: encodeFixed32LE (maskCrc (crc32cExtend (crc32cValue c) [t])) }
          status := Status.ok
          offset := r.offset + c.length + kBlockTrailerSize },
        ⟨r.offset, c.length⟩) := by
  simp [writeRawBlock, fileAppend, h]

theorem writeRawBlock_of_writeFail (r : BuilderRep) (c : List Nat) (t : Nat)
    (h : r.file.writeOk = false) :
    writeRawBlock r c t =
      ({ r with status := Status.ioError "Append" }, ⟨r.offset, c.length⟩) := by
  simp [writeRawBlock, fileAppend, h]

@[simp] theorem writeRawBlock_written (r : BuilderRep) (c : List Nat) (t : Nat) :
    ((writeRawBlock r c t).1).written = r.written := by
  by_cases h : r.file.writeOk
  · rw [writeRawBlock_of_writeOk r c t h]
  · rw [writeRawBlock_of_writeFail r c t (by simpa using h)]

@[simp] theorem writeRawBlock_numEntries (r : BuilderRep) (c : List Nat) (t : Nat) :
    ((writeRawBlock r c t).1).numEntries = r.numEntries := by
  by_cases h : r.file.writeOk
  · rw [writeRawBlock_of_writeOk r c t h]
  · rw [writeRawBlock_of_writeFail r c t (by simpa using h)]

@[simp] theorem writeRawBlock_lastKey (r : BuilderRep) (c : List Nat) (t : Nat) :
    ((writeRawBlock r c t).1).lastKey = r.lastKey := by
  by_cases h : r.file.writeOk
  · rw [writeRawBlock_of_writeOk r c t h]
  · rw [writeRawBlock_of_writeFail r c t (by simpa using h)]

@[simp] theorem writeRawBlock_indexEntries (r : BuilderRep) (c : List Nat) (t : Nat) :
    ((writeRawBlock r c t).1).indexEntries = r.indexEntries := by
  by_cases h : r.file.writeOk
  · rw [writeRawBlock_of_writeOk r c t h]
  · rw [writeRawBlock_of_writeFail r c t (by simpa using h)]

@[simp] theorem writeRawBlock_mainColumn (r : BuilderRep) (c : List Nat) (t : Nat) :
    ((writeRawBlock r c t).1).mainColumn = r.mainColumn := by
  by_cases h : r.file.writeOk
  · rw [writeRawBlock_of_writeOk r c t h]
  · rw [writeRawBlock_of_writeFail r c t (by simpa using h)]

@[simp] theorem writeRawBlock_writeOk (r : BuilderRep) (c : List Nat) (t : Nat) :
    ((writeRawBlock r c t).1).file.writeOk = r.file.writeOk := by
  by_cases h : r.file.writeOk
  · rw [writeRawBlock_of_writeOk r c t h]
  · rw [writeRawBlock_of_writeFail r c t (by simpa using h)]

@[simp] theorem writeRawBlock_synced (r : BuilderRep) (c : List Nat) (t : Nat) :
    ((writeRawBlock r c t).1).file.synced = r.file.synced := by
  by_cases h : r.file.writeOk
  · rw [writeRawBlock_of_writeOk r c t h]
  · rw [writeRawBlock_of_writeFail r c t (by simpa using h)]

@[simp] theorem writeRawBlock_fileClosed (r : BuilderRep) (c : List Nat) (t : Nat) :
    ((writeRawBlock r c t).1).file.closed = r.file.closed := by
  by_cases h : r.file.writeOk
  · rw [writeRawBlock_of_writeOk r c t h]
  · rw [writeRawBlock_of_writeFail r c t (by simpa using h)]

@[simp] theorem writeRawBlock_closed (r : BuilderRep) (c : List Nat) (t : Nat) :
    ((writeRawBlock r c t).1).closed = r.closed := by
  by_cases h : r.file.writeOk
  · rw [writeRawBlock_of_writeOk r c t h]
  · rw [writeRawBlock_of_writeFail r c t (by simpa using h)]

@[simp] theorem writeRawBlock_dataBlock (r : BuilderRep) (c : List Nat) (t : Nat) :
    ((writeRawBlock r c t).1).dataBlock = r.dataBlock := by
  by_cases h : r.file.writeOk
  · rw [writeRawBlock_of_writeOk r c t h]
  · rw [writeRawBlock_of_writeFail r c t (by simpa using h)]

theorem writeRawBlock_status_ok (r : BuilderRep) (c : List Nat) (t : Nat)
    (h : r.file.writeOk = true) :
    ((writeRawBlock r c t).1).status = Status.ok := by
  rw [writeRawBlock_of_writeOk r c t h]

@[simp] theorem writeRawBlock_snd (r : BuilderRep) (c : List Nat) (t : Nat) :
    (writeRawBlock r c t).2 = ⟨r.offset, c.length⟩ := by
  by_cases h : r.file.writeOk
  · rw [writeRawBlock_of_writeOk r c t h]
  · rw [writeRawBlock_of_writeFail r c t (by simpa using h)]

/-! ## Characterization of `Flush` and the index builder -/

@[simp] theorem writeBlockRaw_written (cfg : TableConfig) (r : BuilderRep)
    (raw : List Nat) : ((writeBlockRaw cfg r raw).1).written = r.written := by
  simp [writeBlockRaw]

@[simp] theorem writeBlockRaw_numEntries (cfg : TableConfig) (r : BuilderRep)
    (raw : List Nat) : ((writeBlockRaw cfg r raw).1).numEntries = r.numEntries := by
  simp [writeBlockRaw]

@[simp] theorem writeBlockRaw_lastKey (cfg : TableConfig) (r : BuilderRep)
    (raw : List Nat) : ((writeBlockRaw cfg r raw).1).lastKey = r.lastKey := by
  simp [writeBlockRaw]

@[simp] theorem writeBlockRaw_indexEntries (cfg : TableConfig) (r : BuilderRep)
    (raw : List Nat) :
    ((writeBlockRaw cfg r raw).1).indexEntries = r.indexEntries := by
  simp [writeBlockRaw]

@[simp] theorem writeBlockRaw_mainColumn (cfg : TableConfig) (r : BuilderRep)
    (raw : List Nat) : ((writeBlockRaw cfg r raw).1).mainColumn = r.mainColumn := by
  simp [writeBlockRaw]

@[simp] theorem writeBlockRaw_writeOk (cfg : TableConfig) (r : BuilderRep)
    (raw : List Nat) :
    ((writeBlockRaw cfg r raw).1).file.writeOk = r.file.writeOk := by
  simp [writeBlockRaw]

@[simp] theorem writeBlockRaw_synced (cfg : TableConfig) (r : BuilderRep)
    (raw : List Nat) : ((writeBlockRaw cfg r raw).1).file.synced = r.file.synced := by
  simp [writeBlockRaw]

@[simp] theorem writeBlockRaw_fileClosed (cfg : TableConfig) (r : BuilderRep)
    (raw : List Nat) : ((writeBlockRaw cfg r raw).1).file.closed = r.file.closed := by
  simp [writeBlockRaw]

@[simp] theorem writeBlockRaw_closed (cfg : TableConfig) (r : BuilderRep)
    (raw : List Nat) : ((writeBlockRaw cfg r raw).1).closed = r.closed := by
  simp [writeBlockRaw]

@[simp] theorem writeBlockRaw_dataBlock (cfg : TableConfig) (r : BuilderRep)
    (raw : List Nat) : ((writeBlockRaw cfg r raw).1).dataBlock = r.dataBlock := by
  simp [writeBlockRaw]

theorem writeBlockRaw_status_ok (cfg : TableConfig) (r : BuilderRep)
    (raw : List Nat) (h : r.file.writeOk = true) :
    ((writeBlockRaw cfg r raw).1).status = Status.ok :=
  writeRawBlock_status_ok r _ _ h

@[simp] theorem flushCore_written (cfg : TableConfig) (r : BuilderRep) :
    (flushCore cfg r).written = r.written := by
  unfold flushCore; split
  · rfl
  · dsimp only; split <;> simp

@[simp] theorem flushCore_numEntries (cfg : TableConfig) (r : BuilderRep) :
    (flushCore cfg r).numEntries = r.numEntries := by
  unfold flushCore; split
  · rfl
  · dsimp only; split <;> simp

@[simp] theorem flushCore_lastKey (cfg : TableConfig) (r : BuilderRep) :
    (flushCore cfg r).lastKey = r.lastKey := by
  unfold flushCore; split
  · rfl
  · dsimp only; split <;> simp

@[simp] theorem flushCore_indexEntries (cfg : TableConfig) (r : BuilderRep) :
    (flushCore cfg r).indexEntries = r.indexEntries := by
  unfold flushCore; split
  · rfl
  · dsimp only; split <;> simp

@[simp] theorem flushCore_mainColumn (cfg : TableConfig) (r : BuilderRep) :
    (flushCore cfg r).mainColumn = r.mainColumn := by
  unfold flushCore; split
  · rfl
  · dsimp only; split <;> simp

@[simp] theorem flushCore_writeOk (cfg : TableConfig) (r : BuilderRep) :
    (flushCore cfg r).file.writeOk = r.file.writeOk := by
  unfold flushCore; split
  · rfl
  · dsimp only; split <;> simp [fileFlushStatus]

@[simp] theorem flushCore_synced (cfg : TableConfig) (r : BuilderRep) :
    (flushCore cfg r).file.synced = r.file.synced := by
  unfold flushCore; split
  · rfl
  · dsimp only; split <;> simp

@[simp] theorem flushCore_fileClosed (cfg : TableConfig) (r : BuilderRep) :
    (flushCore cfg r).file.closed = r.file.closed := by
  unfold flushCore; split
  · rfl
  · dsimp only; split <;> simp

@[simp] theorem flushCore_closed (cfg : TableConfig) (r : BuilderRep) :
    (flushCore cfg r).closed = r.closed := by
  unfold flushCore; split
  · rfl
  · dsimp only; split <;> simp

theorem flushCore_status_ok (cfg : TableConfig) (r : BuilderRep)
    (hst : r.status.isOk = true) (h : r.file.writeOk = true) :
    (flushCore cfg r).status.isOk = true := by
  unfold flushCore; split
  · exact hst
  · have hs := writeBlockRaw_status_ok cfg r (blockFinish r.dataBlock) h
    have hw := writeBlockRaw_writeOk cfg r (blockFinish r.dataBlock)
    dsimp only
    rw [hs]
    simp [fileFlushStatus, hw, h]

theorem flushCore_dataBlock (cfg : TableConfig) (r : BuilderRep) :
    (flushCore cfg r).dataBlock = [] ∨ flushCore cfg r = r := by
  unfold flushCore; split
  · exact Or.inr rfl
  · dsimp only
    split <;> simp

@[simp] theorem subFlush_written (cfg : TableConfig) (r : BuilderRep) :
    (subFlush cfg r).written = r.written := by
  unfold subFlush; split <;> simp

@[simp] theorem subFlush_numEntries (cfg : TableConfig) (r : BuilderRep) :
    (subFlush cfg r).numEntries = r.numEntries := by
  unfold subFlush; split <;> simp

@[simp] theorem subFlush_lastKey (cfg : TableConfig) (r : BuilderRep) :
    (subFlush cfg r).lastKey = r.lastKey := by
  unfold subFlush; split <;> simp

@[simp] theorem subFlush_indexEntries (cfg : TableConfig) (r : BuilderRep) :
    (subFlush cfg r).indexEntries = r.indexEntries := by
  unfold subFlush; split <;> simp

@[simp] theorem subFlush_mainColumn (cfg : TableConfig) (r : BuilderRep) :
    (subFlush cfg r).mainColumn = r.mainColumn := by
  unfold subFlush; split <;> simp

@[simp] theorem subFlush_writeOk (cfg : TableConfig) (r : BuilderRep) :
    (subFlush cfg r).file.writeOk = r.file.writeOk := by
  unfold subFlush; split <;> simp

@[simp] theorem subFlush_synced (cfg : TableConfig) (r : BuilderRep) :
    (subFlush cfg r).file.synced = r.file.synced := by
  unfold subFlush; split <;> simp

@[simp] theorem subFlush_fileClosed (cfg : TableConfig) (r : BuilderRep) :
    (subFlush cfg r).file.closed = r.file.closed := by
  unfold subFlush; split <;> simp

@[simp] theorem subFlush_closed (cfg : TableConfig) (r : BuilderRep) :
    (subFlush cfg r).closed = r.closed := by
  unfold subFlush; split <;> simp

theorem subFlush_status_ok (cfg : TableConfig) (r : BuilderRep)
    (hst : r.status.isOk = true) (h : r.file.writeOk = true) :
    (subFlush cfg r).status.isOk = true := by
  unfold subFlush
  rw [if_pos hst]
  exact flushCore_status_ok cfg r hst h

@[simp] theorem addIndexEntryFn_written (r : BuilderRep) (nk : Option (List Nat)) :
    (addIndexEntryFn r nk).written = r.written := by
  simp [addIndexEntryFn]

@[simp] theorem addIndexEntryFn_numEntries (r : BuilderRep) (nk : Option (List Nat)) :
    (addIndexEntryFn r nk).numEntries = r.numEntries := by
  simp [addIndexEntryFn]

@[simp] theorem addIndexEntryFn_status (r : BuilderRep) (nk : Option (List Nat)) :
    (addIndexEntryFn r nk).status = r.status := by
  simp [addIndexEntryFn]

@[simp] theorem addIndexEntryFn_file (r : BuilderRep) (nk : Option (List Nat)) :
    (addIndexEntryFn r nk).file = r.file := by
  simp [addIndexEntryFn]

@[simp] theorem addIndexEntryFn_mainColumn (r : BuilderRep) (nk : Option (List Nat)) :
    (addIndexEntryFn r nk).mainColumn = r.mainColumn := by
  simp [addIndexEntryFn]

@[simp] theorem addIndexEntryFn_closed (r : BuilderRep) (nk : Option (List Nat)) :
    (addIndexEntryFn r nk).closed = r.closed := by
  simp [addIndexEntryFn]

@[simp] theorem addIndexEntryFn_dataBlock (r : BuilderRep) (nk : Option (List Nat)) :
    (addIndexEntryFn r nk).dataBlock = r.dataBlock := by
  simp [addIndexEntryFn]

@[simp] theorem addIndexEntryFn_offset (r : BuilderRep) (nk : Option (List Nat)) :
    (addIndexEntryFn r nk).offset = r.offset := by
  simp [addIndexEntryFn]

/-! ## Status aggregation (`status()` / `ok()`) -/

theorem ctbStatusAux_all_ok (r : BuilderRep) (subs : List BuilderRep)
    (h : ∀ s ∈ subs, s.status.isOk = true) : ctbStatusAux r subs = r.status := by
  unfold ctbStatusAux
  have : subs.find? (fun s => !s.status.isOk) = none :=
    List.find?_eq_none.mpr (fun s hs => by simp [h s hs])
  rw [this]

theorem ctbOkAux_iff (r : BuilderRep) (subs : List BuilderRep) :
    ctbOkAux r subs = true ↔
      (r.status.isOk = true ∧ ∀ s ∈ subs, s.status.isOk = true) := by
  unfold ctbOkAux ctbStatusAux
  induction subs with
  | nil => simp [List.find?]
  | cons x xs ih =>
    by_cases hx : x.status.isOk
    · simpa [List.find?_cons, hx] using
        (by simpa using ih : _ ↔ (r.status.isOk = true ∧ ∀ s ∈ xs, s.status.isOk = true))
    · have hfind : List.find? (fun s => !s.status.isOk) (x :: xs) = some x := by
        simp [List.find?_cons, hx]
      rw [hfind]
      simp only [Bool.not_eq_true] at hx
      simp [hx]

theorem ctbOk_iff (b : CTBuilder) :
    ctbOk b = true ↔
      (b.rep.status.isOk = true ∧ ∀ s ∈ b.subBuilders, s.status.isOk = true) :=
  ctbOkAux_iff b.rep b.subBuilders

/-! ## Characterization of `Finish` -/

@[simp] theorem fileAppend_writeOk (f : FileW) (d : List Nat) :
    (fileAppend f d).1.writeOk = f.writeOk := by
  unfold fileAppend; split <;> rfl

@[simp] theorem fileAppend_synced (f : FileW) (d : List Nat) :
    (fileAppend f d).1.synced = f.synced := by
  unfold fileAppend; split <;> rfl

@[simp] theorem fileAppend_closed (f : FileW) (d : List Nat) :
    (fileAppend f d).1.closed = f.closed := by
  unfold fileAppend; split <;> rfl

theorem fileAppend_status_ok (f : FileW) (d : List Nat) (h : f.writeOk = true) :
    (fileAppend f d).2 = Status.ok := by
  unfold fileAppend; rw [h]; rfl

theorem subFinish_not_ok (cfg : TableConfig) (r : BuilderRep)
    (h : r.status.isOk = false) : subFinish cfg r = { r with closed := true } := by
  unfold subFinish subFlush
  simp [h]

theorem subFinish_ok (cfg : TableConfig) (r0 : BuilderRep)
    (hst : r0.status.isOk = true) (hw : r0.file.writeOk = true) :
    (subFinish cfg r0).status = Status.ok ∧
    (subFinish cfg r0).file.writeOk = true ∧
    (subFinish cfg r0).closed = true ∧
    (subFinish cfg r0).mainColumn = r0.mainColumn ∧
    (subFinish cfg r0).file.synced = r0.file.synced ∧
    (subFinish cfg r0).file.closed = r0.file.closed := by
  have h1 : (subFlush cfg r0).status.isOk = true := subFlush_status_ok cfg r0 hst hw
  unfold subFinish
  by_cases hemp : r0.dataBlock.isEmpty = true <;>
    simp [hemp, h1, hw, writeRawBlock_status_ok, writeBlockRaw_status_ok,
      fileAppend_status_ok, fileAppend]

@[simp] theorem mainFlush_subBuilders (cfg : TableConfig) (b : CTBuilder) :
    (mainFlush cfg b).subBuilders = b.subBuilders := by
  unfold mainFlush; split <;> rfl

@[simp] theorem mainFlush_written (cfg : TableConfig) (b : CTBuilder) :
    (mainFlush cfg b).rep.written = b.rep.written := by
  unfold mainFlush; split <;> simp

@[simp] theorem mainFlush_numEntries (cfg : TableConfig) (b : CTBuilder) :
    (mainFlush cfg b).rep.numEntries = b.rep.numEntries := by
  unfold mainFlush; split <;> simp

@[simp] theorem mainFlush_lastKey (cfg : TableConfig) (b : CTBuilder) :
    (mainFlush cfg b).rep.lastKey = b.rep.lastKey := by
  unfold mainFlush; split <;> simp

@[simp] theorem mainFlush_indexEntries (cfg : TableConfig) (b : CTBuilder) :
    (mainFlush cfg b).rep.indexEntries = b.rep.indexEntries := by
  unfold mainFlush; split <;> simp

@[simp] theorem mainFlush_mainColumn (cfg : TableConfig) (b : CTBuilder) :
    (mainFlush cfg b).rep.mainColumn = b.rep.mainColumn := by
  unfold mainFlush; split <;> simp

@[simp] theorem mainFlush_writeOk (cfg : TableConfig) (b : CTBuilder) :
    (mainFlush cfg b).rep.file.writeOk = b.rep.file.writeOk := by
  unfold mainFlush; split <;> simp

@[simp] theorem mainFlush_synced (cfg : TableConfig) (b : CTBuilder) :
    (mainFlush cfg b).rep.file.synced = b.rep.file.synced := by
  unfold mainFlush; split <;> simp

@[simp] theorem mainFlush_fileClosed (cfg : TableConfig) (b : CTBuilder) :
    (mainFlush cfg b).rep.file.closed = b.rep.file.closed := by
  unfold mainFlush; split <;> simp

@[simp] theorem mainFlush_closed (cfg : TableConfig) (b : CTBuilder) :
    (mainFlush cfg b).rep.closed = b.rep.closed := by
  unfold mainFlush; split <;> simp

theorem finishSubsLoop_all_ok (cfg : TableConfig) (subs : List BuilderRep)
    (h : ∀ s ∈ subs, s.status.isOk = true ∧ s.file.writeOk = true) :
    finishSubsLoop cfg subs = (subs.map (subFinish cfg), none) := by
  induction subs with
  | nil => rfl
  | cons x xs ih =>
    have hx := h x (List.mem_cons_self x xs)
    have hxok : (subFinish cfg x).status = Status.ok :=
      (subFinish_ok cfg x hx.1 hx.2).1
    unfold finishSubsLoop
    rw [ih (fun s hs => h s (List.mem_cons_of_mem x hs))]
    simp [hxok]

theorem subFinish_synced (cfg : TableConfig) (r : BuilderRep) :
    (subFinish cfg r).file.synced = r.file.synced := by
  unfold subFinish
  dsimp only
  split_ifs <;> simp

theorem subFinish_fileClosed (cfg : TableConfig) (r : BuilderRep) :
    (subFinish cfg r).file.closed = r.file.closed := by
  unfold subFinish
  dsimp only
  split_ifs <;> simp

theorem subFinish_closed (cfg : TableConfig) (r : BuilderRep) :
    (subFinish cfg r).closed = true := by
  unfold subFinish
  dsimp only
  split_ifs <;> simp

/-- The loop at the head of `Finish` when the `f`-th subcolumn's `Finish`
is the first to fail: the builders before `f` are finished, the failing one
is finished (with its non-OK status stored), the rest are left untouched,
and the failing status is reported. -/
theorem finishSubsLoop_fail (cfg : TableConfig) :
    ∀ (subs : List BuilderRep) (f : Nat), f < subs.length →
      (∀ s ∈ subs.take f, s.status.isOk = true ∧ s.file.writeOk = true) →
      (subFinish cfg (subs.getD f dRep)).status.isOk = false →
      finishSubsLoop cfg subs =
        ((subs.take f).map (subFinish cfg)
            ++ subFinish cfg (subs.getD f dRep) :: subs.drop (f + 1),
          some (subFinish cfg (subs.getD f dRep)).status) := by
  intro subs
  induction subs with
  | nil =>
    intro f hf
    simp at hf
  | cons x xs ih =>
    intro f hf hok hfail
    cases f with
    | zero =>
      simp only [List.getD_cons_zero] at hfail ⊢
      unfold finishSubsLoop
      dsimp only
      rw [if_neg (by simp [hfail])]
      simp
    | succ g =>
      have hx : x.status.isOk = true ∧ x.file.writeOk = true := by
        refine hok x ?_
        rw [List.take_succ_cons]
        exact List.mem_cons_self x _
      have hxok : (subFinish cfg x).status = Status.ok :=
        (subFinish_ok cfg x hx.1 hx.2).1
      have hrec := ih g (by simpa using hf)
        (fun s hs => hok s (by rw [List.take_succ_cons]; exact List.mem_cons_of_mem x hs))
        (by simpa [List.getD_cons_succ] using hfail)
      unfold finishSubsLoop
      dsimp only
      rw [if_pos (by simp [hxok])]
      rw [hrec]
      simp [List.take_succ_cons, List.getD_cons_succ]

/-- `Finish` on the main builder when the `f`-th subcolumn's `Finish` is
the first to fail: the early return reports that status and leaves the
main rep — and everything after the failing subcolumn — untouched; the
sync/close loop is never reached. -/
theorem ctbFinish_fail (cfg : TableConfig) (b : CTBuilder) (f : Nat)
    (hf : f < b.subBuilders.length)
    (hok : ∀ s ∈ b.subBuilders.take f, s.status.isOk = true ∧ s.file.writeOk = true)
    (hfail : (subFinish cfg (b.subBuilders.getD f dRep)).status.isOk = false) :
    ctbFinish cfg b =
      ({ b with subBuilders := (b.subBuilders.take f).map (subFinish cfg)
          ++ subFinish cfg (b.subBuilders.getD f dRep)
            :: b.subBuilders.drop (f + 1) },
        (subFinish cfg (b.subBuilders.getD f dRep)).status) := by
  have hloop := finishSubsLoop_fail cfg b.subBuilders f hf hok hfail
  unfold ctbFinish
  rw [hloop]

theorem ctbFinish_of_ok_subs (cfg : TableConfig) (b : CTBuilder)
    (h : ∀ s ∈ b.subBuilders, s.status.isOk = true ∧ s.file.writeOk = true) :
    (∀ s ∈ (ctbFinish cfg b).1.subBuilders,
        s.closed = true ∧ s.status = Status.ok ∧
        s.file.synced = true ∧ s.file.closed = true ∧
        (∃ x ∈ b.subBuilders, s.mainColumn = x.mainColumn)) ∧
    (ctbFinish cfg b).1.rep.file.synced = b.rep.file.synced ∧
    (ctbFinish cfg b).1.rep.file.closed = b.rep.file.closed ∧
    (ctbFinish cfg b).2 = (ctbFinish cfg b).1.rep.status := by
  have hloop := finishSubsLoop_all_ok cfg b.subBuilders h
  unfold ctbFinish
  rw [hloop]
  dsimp only
  refine ⟨?_, ?_, ?_, ?_⟩
  · intro s hs
    simp only [List.map_map, List.mem_map, Function.comp] at hs
    obtain ⟨x, hx, rfl⟩ := hs
    obtain ⟨hxs, hxw, hxc, hxm, _, _⟩ := subFinish_ok cfg x (h x hx).1 (h x hx).2
    refine ⟨by simp [hxs, hxc], by simp [hxs], by simp [hxs], by simp [hxs],
      ⟨x, hx, ?_⟩⟩
    simpa [hxs] using hxm
  · split_ifs <;> simp
  · split_ifs <;> simp
  · rfl

theorem mainFlush_not_ok (cfg : TableConfig) (b : CTBuilder)
    (h : ctbOk b = false) : mainFlush cfg b = b := by
  unfold mainFlush
  rw [if_neg (by simp [h])]

theorem ctbAdd_not_ok (cfg : TableConfig) (b : CTBuilder) (k v : List Nat)
    (h : ctbOk b = false) : ctbAdd cfg b k v = b := by
  unfold ctbAdd
  rw [if_neg (by simp [h])]

/-! ## Characterization of `Add` -/

@[simp] theorem createSubs_length (cfg : TableConfig) :
    (createSubs cfg).length = cfg.columnCount := by
  simp [createSubs]

theorem createSubs_status (cfg : TableConfig) :
    ∀ s ∈ createSubs cfg, s.status = Status.ok := by
  intro s hs
  obtain ⟨i, _, rfl⟩ := List.mem_map.mp hs
  rfl

theorem ctbAddMain_rep_written (cfg : TableConfig) (b : CTBuilder) (k : List Nat) :
    (ctbAddMain cfg b k).rep.written =
      b.rep.written ++ [(k, putFixed64BE b.rep.numEntries)] := by
  unfold ctbAddMain
  dsimp only
  split_ifs <;> simp

theorem ctbAddMain_rep_numEntries (cfg : TableConfig) (b : CTBuilder) (k : List Nat) :
    (ctbAddMain cfg b k).rep.numEntries = b.rep.numEntries + 1 := by
  unfold ctbAddMain
  dsimp only
  split_ifs <;> simp

theorem ctbAddMain_rep_lastKey (cfg : TableConfig) (b : CTBuilder) (k : List Nat) :
    (ctbAddMain cfg b k).rep.lastKey = k := by
  unfold ctbAddMain
  dsimp only

theorem ctbAddMain_subBuilders (cfg : TableConfig) (b : CTBuilder) (k : List Nat) :
    (ctbAddMain cfg b k).subBuilders =
      if b.subBuilders.isEmpty then createSubs cfg else b.subBuilders := by
  unfold ctbAddMain
  dsimp only
  split_ifs <;> simp

@[simp] theorem addInSub_rep_written (cfg : TableConfig) (b : CTBuilder)
    (pos v : List Nat) :
    (addInSubcolumnBuilders cfg b pos v).rep.written = b.rep.written := by
  unfold addInSubcolumnBuilders
  dsimp only
  split_ifs <;> simp

@[simp] theorem addInSub_rep_numEntries (cfg : TableConfig) (b : CTBuilder)
    (pos v : List Nat) :
    (addInSubcolumnBuilders cfg b pos v).rep.numEntries = b.rep.numEntries := by
  unfold addInSubcolumnBuilders
  dsimp only
  split_ifs <;> simp

@[simp] theorem addInSub_rep_lastKey (cfg : TableConfig) (b : CTBuilder)
    (pos v : List Nat) :
    (addInSubcolumnBuilders cfg b pos v).rep.lastKey = b.rep.lastKey := by
  unfold addInSubcolumnBuilders
  dsimp only
  split_ifs <;> simp

@[simp] theorem addInSub_rep_indexEntries (cfg : TableConfig) (b : CTBuilder)
    (pos v : List Nat) :
    (addInSubcolumnBuilders cfg b pos v).rep.indexEntries =
      b.rep.indexEntries := by
  unfold addInSubcolumnBuilders
  dsimp only
  split_ifs <;> simp

theorem addInSub_arity (cfg : TableConfig) (b : CTBuilder) (pos v : List Nat)
    (h1 : cfg.split v ≠ []) (h2 : (cfg.split v).length ≠ cfg.columnCount) :
    addInSubcolumnBuilders cfg b pos v =
      { b with rep :=
          { b.rep with
              status := Status.invalidArgument "table_options.column_count" } } := by
  unfold addInSubcolumnBuilders
  rw [if_pos ⟨h1, h2⟩]

theorem addInSub_no_arity (cfg : TableConfig) (b : CTBuilder) (pos v : List Nat)
    (h : ¬(cfg.split v ≠ [] ∧ (cfg.split v).length ≠ cfg.columnCount)) :
    addInSubcolumnBuilders cfg b pos v =
      { b with subBuilders :=
          addSubsLoop cfg pos (pairSubs b.subBuilders (cfg.split v)) } := by
  unfold addInSubcolumnBuilders
  rw [if_neg h]

theorem addSubsLoop_spec (cfg : TableConfig) (pos : List Nat) :
    ∀ l : List (BuilderRep × List Nat), (∀ p ∈ l, p.1.status.isOk = true) →
      (addSubsLoop cfg pos l).length = l.length ∧
      ∀ i, i < l.length →
        ((addSubsLoop cfg pos l).getD i dRep).written
            = (l.getD i dPair).1.written ++ [(pos, (l.getD i dPair).2)] ∧
        ((addSubsLoop cfg pos l).getD i dRep).numEntries
            = (l.getD i dPair).1.numEntries + 1 := by
  intro l
  induction l with
  | nil =>
    intro _
    exact ⟨rfl, fun i hi => absurd hi (by simp)⟩
  | cons p rest ih =>
    intro h
    obtain ⟨r, v⟩ := p
    have hr : r.status.isOk = true := h (r, v) (List.mem_cons_self _ _)
    have hrest := ih (fun q hq => h q (List.mem_cons_of_mem _ hq))
    simp only [addSubsLoop]
    rw [if_pos hr]
    refine ⟨by simp [hrest.1], ?_⟩
    intro i hi
    cases i with
    | zero =>
      constructor
      · simp only [List.getD_cons_zero]
        split_ifs <;> simp
      · simp only [List.getD_cons_zero]
        split_ifs <;> simp
    | succ i =>
      have := hrest.2 i (by simpa using hi)
      simpa [List.getD_cons_succ] using this

theorem createSubs_getD (cfg : TableConfig) (i : Nat) (h : i < cfg.columnCount) :
    (createSubs cfg).getD i dRep = initRep false (cfg.subFileOk i) := by
  rw [List.getD_eq_getElem _ _ (by simpa using h)]
  simp [createSubs]

theorem pairSubs_length_of_arity (subs : List BuilderRep)
    (vals : List (List Nat)) (h : vals = [] ∨ vals.length = subs.length) :
    (pairSubs subs vals).length = subs.length := by
  unfold pairSubs
  rcases h with h | h
  · simp [h]
  · by_cases he : vals.isEmpty
    · simp [he]
    · simp [he, h]

theorem pairSubs_getD (subs : List BuilderRep) (vals : List (List Nat)) (i : Nat)
    (hi : i < (pairSubs subs vals).length) :
    (pairSubs subs vals).getD i dPair =
      (subs.getD i dRep, if vals.isEmpty then [] else vals.getD i []) := by
  unfold pairSubs at hi ⊢
  by_cases he : vals.isEmpty
  · simp only [he, if_true] at hi ⊢
    simp only [List.length_map] at hi
    rw [List.getD_eq_getElem _ _ (by simpa using hi)]
    rw [List.getD_eq_getElem _ _ hi]
    simp
  · have hef : vals.isEmpty = false := by simpa using he
    rw [hef] at hi ⊢
    simp only [Bool.false_eq_true, if_false] at hi ⊢
    rw [List.length_zip] at hi
    rw [List.getD_eq_getElem _ _ (by simpa [List.length_zip] using hi)]
    rw [List.getD_eq_getElem _ _ (by omega : i < subs.length)]
    rw [List.getD_eq_getElem _ _ (by omega : i < vals.length)]
    simp

theorem pairSubs_status (subs : List BuilderRep) (vals : List (List Nat))
    (h : ∀ s ∈ subs, s.status.isOk = true) :
    ∀ p ∈ pairSubs subs vals, p.1.status.isOk = true := by
  intro p hp
  unfold pairSubs at hp
  split at hp
  · obtain ⟨s, hs, rfl⟩ := List.mem_map.mp hp
    exact h s hs
  · obtain ⟨a, bb⟩ := p
    exact h a (List.of_mem_zip hp).1

/-! ## The row-position alignment invariant -/

theorem inv_init (cfg : TableConfig) (writeOk : Bool) :
    Inv cfg (initBuilder writeOk) := by
  refine ⟨rfl, ?_, ?_, ?_, Or.inr ⟨rfl, rfl⟩⟩
  · intro j hj
    simp [initBuilder, initRep] at hj
  · intro i hi
    simp [initBuilder, initRep] at hi
  · intro _ i hi
    simp [initBuilder, initRep] at hi

theorem value_append_prop (W : List (List Nat × List Nat)) (n : Nat)
    (k : List Nat) (hlen : W.length = n)
    (hprop : ∀ j, j < n → (W.getD j ([], [])).2 = putFixed64BE j) :
    ∀ j, j < n + 1 →
      ((W ++ [(k, putFixed64BE n)]).getD j ([], [])).2 = putFixed64BE j := by
  intro j hj
  rcases Nat.lt_or_ge j n with hlt | hge
  · rw [List.getD_append _ _ _ _ (by omega)]
    exact hprop j hlt
  · have hj_eq : j = n := by omega
    subst hj_eq
    rw [List.getD_append_right _ _ _ _ (by omega)]
    simp [hlen]

theorem key_append_prop (W : List (List Nat × List Nat)) (n : Nat)
    (v : List Nat) (hlen : W.length = n)
    (hprop : ∀ j, j < n → (W.getD j ([], [])).1 = putFixed64BE j) :
    ∀ j, j < n + 1 →
      ((W ++ [(putFixed64BE n, v)]).getD j ([], [])).1 = putFixed64BE j := by
  intro j hj
  rcases Nat.lt_or_ge j n with hlt | hge
  · rw [List.getD_append _ _ _ _ (by omega)]
    exact hprop j hlt
  · have hj_eq : j = n := by omega
    subst hj_eq
    rw [List.getD_append_right _ _ _ _ (by omega)]
    simp [hlen]

theorem inv_step (cfg : TableConfig) (b : CTBuilder) (k v : List Nat)
    (hInv : Inv cfg b) : Inv cfg (ctbAdd cfg b k v) := by
  obtain ⟨h1, h2, h3, h4, h5⟩ := hInv
  by_cases hok : ctbOk b = true
  · unfold ctbAdd
    rw [if_pos hok]
    have hBw := ctbAddMain_rep_written cfg b k
    have hBn := ctbAddMain_rep_numEntries cfg b k
    have hBsubs := ctbAddMain_subBuilders cfg b k
    have hmain_ok : b.rep.status.isOk = true := ((ctbOk_iff b).mp hok).1
    have hsubs_b : ∀ s ∈ b.subBuilders, s.status.isOk = true :=
      ((ctbOk_iff b).mp hok).2
    have hBsubs_ok : ∀ s ∈ (ctbAddMain cfg b k).subBuilders,
        s.status.isOk = true := by
      rw [hBsubs]
      split
      · intro s hs
        rw [createSubs_status cfg s hs]
        rfl
      · exact hsubs_b
    have hBlen : (ctbAddMain cfg b k).subBuilders.length = cfg.columnCount := by
      rw [hBsubs]
      split
      next hemp => simp
      next hemp =>
        rcases h5 with h5 | ⟨h5e, _⟩
        · exact h5
        · exact absurd (by simp [h5e] : b.subBuilders.isEmpty = true) hemp
    have hBsub_getD : ∀ i, i < cfg.columnCount →
        ((ctbAddMain cfg b k).subBuilders.getD i dRep).written.length
            = ((ctbAddMain cfg b k).subBuilders.getD i dRep).numEntries ∧
        ((ctbAddMain cfg b k).subBuilders.getD i dRep).numEntries
            = b.rep.numEntries ∧
        (∀ j, j < ((ctbAddMain cfg b k).subBuilders.getD i dRep).numEntries →
          (((ctbAddMain cfg b k).subBuilders.getD i dRep).written.getD
              j ([], [])).1 = putFixed64BE j) := by
      intro i hi
      rw [hBsubs]
      split
      next hemp =>
        have hbe : b.subBuilders = [] := List.isEmpty_iff.mp hemp
        have hn0 : b.rep.numEntries = 0 := by
          rcases h5 with h5 | ⟨_, h5n⟩
          · rw [hbe] at h5
            simp at h5
            omega
          · exact h5n
        rw [createSubs_getD cfg i hi]
        exact ⟨rfl, hn0.symm, fun j hj => absurd hj (by simp [initRep])⟩
      next hemp =>
        have hblen : b.subBuilders.length = cfg.columnCount := by
          rcases h5 with h5 | ⟨h5e, _⟩
          · exact h5
          · exact absurd (by simp [h5e] : b.subBuilders.isEmpty = true) hemp
        have hib : i < b.subBuilders.length := by omega
        obtain ⟨e1, _, e3⟩ := h3 i hib
        exact ⟨e1, h4 hok i hib, e3⟩
    by_cases har : cfg.split v ≠ [] ∧ (cfg.split v).length ≠ cfg.columnCount
    · rw [addInSub_arity cfg _ _ _ har.1 har.2]
      refine ⟨?_, ?_, ?_, ?_, ?_⟩
      · simp [hBw, hBn, h1]
      · intro j hj
        simp only [hBn] at hj
        simpa [hBw] using value_append_prop b.rep.written b.rep.numEntries k h1 h2 j hj
      · intro i hi
        simp only [hBlen] at hi
        obtain ⟨e1, e2, e3⟩ := hBsub_getD i hi
        refine ⟨e1, ?_, e3⟩
        simp only [hBn]
        omega
      · intro hc
        have : (Status.invalidArgument "table_options.column_count").isOk = true :=
          ((ctbOk_iff _).mp hc).1
        simp at this
      · exact Or.inl hBlen
    · rw [addInSub_no_arity cfg _ _ _ har]
      have hvals : cfg.split v = [] ∨ (cfg.split v).length = cfg.columnCount := by
        by_cases hv : cfg.split v = []
        · exact Or.inl hv
        · refine Or.inr ?_
          by_contra hne
          exact har ⟨hv, hne⟩
      have hplen : (pairSubs (ctbAddMain cfg b k).subBuilders
          (cfg.split v)).length = (ctbAddMain cfg b k).subBuilders.length :=
        pairSubs_length_of_arity _ _ (by
          rcases hvals with hv | hv
          · exact Or.inl hv
          · exact Or.inr (by rw [hv, hBlen]))
      have hloopspec := addSubsLoop_spec cfg (putFixed64BE b.rep.numEntries)
        (pairSubs (ctbAddMain cfg b k).subBuilders (cfg.split v))
        (pairSubs_status _ _ hBsubs_ok)
      refine ⟨?_, ?_, ?_, ?_, ?_⟩
      · simp [hBw, hBn, h1]
      · intro j hj
        simp only [hBn] at hj
        simpa [hBw] using value_append_prop b.rep.written b.rep.numEntries k h1 h2 j hj
      · intro i hi
        simp only [hloopspec.1, hplen, hBlen] at hi
        have hi2 : i < (pairSubs (ctbAddMain cfg b k).subBuilders
            (cfg.split v)).length := by rw [hplen, hBlen]; exact hi
        obtain ⟨hw, hcnt⟩ := hloopspec.2 i hi2
        rw [pairSubs_getD _ _ i hi2] at hw hcnt
        dsimp only at hw hcnt
        obtain ⟨e1, e2, e3⟩ := hBsub_getD i hi
        refine ⟨?_, ?_, ?_⟩
        · rw [hw, hcnt]
          simp only [List.length_append, List.length_cons, List.length_nil]
          rw [e1]
        · rw [hcnt, e2]
          have hrepn : (addInSubcolumnBuilders cfg (ctbAddMain cfg b k)
              (putFixed64BE b.rep.numEntries) v).rep.numEntries
                = b.rep.numEntries + 1 := by
            rw [addInSub_rep_numEntries, hBn]
          rw [addInSub_no_arity cfg _ _ _ har] at hrepn
          rw [hrepn]
        · intro j hj
          rw [hcnt] at hj
          rw [hw]
          refine key_append_prop _ b.rep.numEntries _ (by rw [e1, e2]) ?_ j ?_
          · intro j2 hj2
            refine e3 j2 ?_
            rw [e2]
            exact hj2
          · rw [e2] at hj
            exact hj
      · intro _ i hi
        simp only [hloopspec.1, hplen, hBlen] at hi
        have hi2 : i < (pairSubs (ctbAddMain cfg b k).subBuilders
            (cfg.split v)).length := by rw [hplen, hBlen]; exact hi
        obtain ⟨_, hcnt⟩ := hloopspec.2 i hi2
        rw [pairSubs_getD _ _ i hi2] at hcnt
        dsimp only at hcnt
        obtain ⟨_, e2, _⟩ := hBsub_getD i hi
        rw [hcnt, e2]
        have hrepn : (addInSubcolumnBuilders cfg (ctbAddMain cfg b k)
            (putFixed64BE b.rep.numEntries) v).rep.numEntries
              = b.rep.numEntries + 1 := by
          rw [addInSub_rep_numEntries, hBn]
        rw [addInSub_no_arity cfg _ _ _ har] at hrepn
        rw [hrepn]
      · exact Or.inl (by rw [hloopspec.1, hplen, hBlen])
  · rw [ctbAdd_not_ok cfg b k v (by simpa using hok)]
    exact ⟨h1, h2, h3, h4, h5⟩

theorem inv_runAdds (cfg : TableConfig) (ops : List (List Nat × List Nat))
    (b : CTBuilder) (hInv : Inv cfg b) : Inv cfg (runAdds cfg b ops) := by
  induction ops generalizing b with
  | nil => exact hInv
  | cons op rest ih => exact ih _ (inv_step cfg b op.1 op.2 hInv)

theorem ctbAddMain_indexEntries_of_flush (cfg : TableConfig) (b : CTBuilder)
    (k : List Nat) (hok : ctbOk b = true) (hw : b.rep.file.writeOk = true)
    (hpol : cfg.policy b.rep.dataBlock k (putFixed64BE b.rep.numEntries) = true) :
    ∃ hdl, (ctbAddMain cfg b k).rep.indexEntries =
      b.rep.indexEntries ++ [(findShortestSeparator b.rep.lastKey k, hdl)] := by
  have hmain_ok : b.rep.status.isOk = true := ((ctbOk_iff b).mp hok).1
  have hsubs_b : ∀ s ∈ b.subBuilders, s.status.isOk = true :=
    ((ctbOk_iff b).mp hok).2
  unfold ctbAddMain
  cases hemp : b.subBuilders.isEmpty
  · simp only [hemp, Bool.false_eq_true, if_false]
    rw [if_pos hpol]
    have hMF : mainFlush cfg b =
        { rep := flushCore cfg b.rep, subBuilders := b.subBuilders } := by
      unfold mainFlush
      rw [if_pos hok]
    have hfok :
        ctbOk { rep := flushCore cfg b.rep, subBuilders := b.subBuilders } = true := by
      rw [ctbOk_iff]
      exact ⟨flushCore_status_ok cfg b.rep hmain_ok hw, hsubs_b⟩
    rw [hMF, if_pos hfok]
    exact ⟨(flushCore cfg b.rep).pendingHandle, by simp [addIndexEntryFn]⟩
  · simp only [hemp, eq_self_iff_true, if_true]
    rw [if_pos hpol]
    have hok1 : ctbOk { rep := b.rep, subBuilders := createSubs cfg } = true := by
      rw [ctbOk_iff]
      exact ⟨hmain_ok, fun s hs => by rw [createSubs_status cfg s hs]; rfl⟩
    have hMF : mainFlush cfg { rep := b.rep, subBuilders := createSubs cfg } =
        { rep := flushCore cfg b.rep, subBuilders := createSubs cfg } := by
      unfold mainFlush
      rw [if_pos hok1]
    have hfok :
        ctbOk { rep := flushCore cfg b.rep, subBuilders := createSubs cfg } = true := by
      rw [ctbOk_iff]
      refine ⟨flushCore_status_ok cfg b.rep hmain_ok hw, ?_⟩
      exact fun s hs => by rw [createSubs_status cfg s hs]; rfl
    rw [hMF, if_pos hfok]
    exact ⟨(flushCore cfg b.rep).pendingHandle, by simp [addIndexEntryFn]⟩

theorem ctbFinish_status_of_main_bad (cfg : TableConfig) (b : CTBuilder)
    (h1 : b.rep.status.isOk = false)
    (h : ∀ s ∈ b.subBuilders, s.status.isOk = true ∧ s.file.writeOk = true) :
    (ctbFinish cfg b).2 = b.rep.status := by
  have hloop := finishSubsLoop_all_ok cfg b.subBuilders h
  have hsubsok : ∀ s ∈ List.map (subFinish cfg) b.subBuilders,
      s.status.isOk = true := by
    intro s hs
    obtain ⟨x, hx, rfl⟩ := List.mem_map.mp hs
    simp [(subFinish_ok cfg x (h x hx).1 (h x hx).2).1]
  have hcond : ∀ r : BuilderRep, r.status.isOk = false →
      ctbOkAux r (List.map (subFinish cfg) b.subBuilders) = false := by
    intro r hr
    unfold ctbOkAux
    rw [ctbStatusAux_all_ok _ _ hsubsok, hr]
  have hok1 : ctbOk ⟨b.rep, List.map (subFinish cfg) b.subBuilders⟩ = false := by
    unfold ctbOk ctbStatus
    rw [ctbStatusAux_all_ok _ _ hsubsok]
    exact h1
  unfold ctbFinish
  rw [hloop]
  dsimp only
  rw [mainFlush_not_ok cfg _ hok1]
  simp [hcond, h1]

/-! ## The claims -/

/-- C1: for every sequence of `Add` calls on a fresh main builder, the
row-position value written into the main data block for the j-th record
equals the row-position key written into every subcolumn builder's j-th
entry — both are the 8-byte big-endian string `putFixed64BE j` passed once
per `Add` to the main block and to each subcolumn's `Add`. -/
theorem c1_row_position_alignment (cfg : TableConfig) (writeOk : Bool)
    (ops : List (List Nat × List Nat)) (i j : Nat)
    (hi : i < (runAdds cfg (initBuilder writeOk) ops).subBuilders.length)
    (hj : j < ((runAdds cfg (initBuilder writeOk) ops).subBuilders.getD i
        dRep).written.length) :
    j < (runAdds cfg (initBuilder writeOk) ops).rep.written.length ∧
    (((runAdds cfg (initBuilder writeOk) ops).subBuilders.getD i
        dRep).written.getD j ([], [])).1
      = ((runAdds cfg (initBuilder writeOk) ops).rep.written.getD j ([], [])).2 ∧
    (((runAdds cfg (initBuilder writeOk) ops).subBuilders.getD i
        dRep).written.getD j ([], [])).1 = putFixed64BE j := by
  obtain ⟨h1, h2, h3, _, _⟩ :=
    inv_runAdds cfg ops (initBuilder writeOk) (inv_init cfg writeOk)
  obtain ⟨e1, e2, e3⟩ := h3 i hi
  have hjn : j < ((runAdds cfg (initBuilder writeOk) ops).subBuilders.getD i
      dRep).numEntries := by
    rw [← e1]; exact hj
  have hjrep : j < (runAdds cfg (initBuilder writeOk) ops).rep.numEntries :=
    lt_of_lt_of_le hjn e2
  refine ⟨by rw [h1]; exact hjrep, ?_, e3 j hjn⟩
  rw [e3 j hjn, h2 j hjrep]

/-- Witness for C1 at a concrete two-record workload. -/
theorem c1_witness :
    1 < (runAdds cfgW (initBuilder true) opsW).rep.written.length ∧
    (((runAdds cfgW (initBuilder true) opsW).subBuilders.getD 0
        dRep).written.getD 1 ([], [])).1
      = ((runAdds cfgW (initBuilder true) opsW).rep.written.getD 1 ([], [])).2 ∧
    (((runAdds cfgW (initBuilder true) opsW).subBuilders.getD 0
        dRep).written.getD 1 ([], [])).1 = putFixed64BE 1 :=
  c1_row_position_alignment cfgW true opsW 0 1 (by decide) (by decide)

/-- C2: a successful `Add` increments the entry counter by exactly one and
records the row position computed as the pre-increment `num_entries`,
encoded as exactly 8 big-endian bytes, and the encoding is strictly
monotone for the lexicographic byte order below `2 ^ 64`. -/
theorem c2_row_position_encoding (cfg : TableConfig) (b : CTBuilder)
    (k v : List Nat) (hok : ctbOk b = true) :
    (ctbAdd cfg b k v).rep.numEntries = b.rep.numEntries + 1 ∧
    (ctbAdd cfg b k v).rep.written
      = b.rep.written ++ [(k, putFixed64BE b.rep.numEntries)] ∧
    (putFixed64BE b.rep.numEntries).length = 8 ∧
    (∀ i j : Nat, i < j → j < 2 ^ 64 →
      lexLt (putFixed64BE i) (putFixed64BE j) = true) := by
  unfold ctbAdd
  rw [if_pos hok]
  refine ⟨?_, ?_, putFixed64BE_length _, fun i j hij hj => putFixed64BE_lt hij hj⟩
  · rw [addInSub_rep_numEntries, ctbAddMain_rep_numEntries]
  · rw [addInSub_rep_written, ctbAddMain_rep_written]

/-- Witness for C2 at a concrete builder state. -/
theorem c2_witness :
    (ctbAdd cfgW (initBuilder true) [5] [9]).rep.numEntries
        = (initBuilder true).rep.numEntries + 1 ∧
    (ctbAdd cfgW (initBuilder true) [5] [9]).rep.written
        = (initBuilder true).rep.written ++
          [([5], putFixed64BE (initBuilder true).rep.numEntries)] ∧
    (putFixed64BE (initBuilder true).rep.numEntries).length = 8 ∧
    (∀ i j : Nat, i < j → j < 2 ^ 64 →
      lexLt (putFixed64BE i) (putFixed64BE j) = true) :=
  c2_row_position_encoding cfgW (initBuilder true) [5] [9] (by decide)

/-- C3: `WriteBlock` either stores the raw bytes unchanged with the
`kNoCompression` type byte (block at least `kCompressionSizeLimit` bytes,
unsupported or failing codec, or insufficient ratio), or stores the codec's
output, and then only when the block is under the size limit and the
compressed form is strictly smaller than `raw - raw/8`; the chosen body and
type byte are exactly what is framed by `WriteRawBlock`. -/
theorem c3_compression_fallback (cfg : TableConfig) (raw : List Nat) :
    ((blockPayload cfg raw = (raw, kNoCompression)) ∨
      (∃ compressed, cfg.compress raw = some compressed ∧
        blockPayload cfg raw = (compressed, cfg.compressionType) ∧
        compressed.length < raw.length - raw.length / 8 ∧
        raw.length ≤ kCompressionSizeLimit ∧
        cfg.compressionType ≠ kNoCompression)) ∧
    (∀ r : BuilderRep, writeBlockRaw cfg r raw
        = writeRawBlock r (blockPayload cfg raw).1 (blockPayload cfg raw).2) := by
  refine ⟨?_, fun r => rfl⟩
  unfold blockPayload compressBlock
  by_cases hlim : raw.length < kCompressionSizeLimit
  · rw [if_pos hlim]
    by_cases hty : cfg.compressionType = kNoCompression
    · rw [if_pos hty]
      exact Or.inl rfl
    · rw [if_neg hty]
      cases hc : cfg.compress raw with
      | none => exact Or.inl rfl
      | some compressed =>
        dsimp only
        by_cases hr : goodCompressionRatio compressed.length raw.length = true
        · refine Or.inr ⟨compressed, rfl, by rw [if_pos hr], ?_,
            Nat.le_of_lt hlim, hty⟩
          simpa [goodCompressionRatio] using hr
        · rw [if_neg hr]
          exact Or.inl rfl
  · rw [if_neg hlim]
    exact Or.inl rfl

/-- C4: when the flush policy seals the current main block during `Add`,
the index entry stored for that block carries the separator produced by
`FindShortestSeparator` from the block's last key `a` and the incoming
key `b`, and that separator `s` satisfies `a ≤ s < b` with `|s| ≤ |a|`;
the final block's index key, produced by `FindShortSuccessor`, satisfies
`s ≥ a` with `|s| ≤ |a|`. -/
theorem c4_shortest_separator_index (cfg : TableConfig) (b : CTBuilder)
    (k v : List Nat) (hok : ctbOk b = true) (hw : b.rep.file.writeOk = true)
    (hpol : cfg.policy b.rep.dataBlock k (putFixed64BE b.rep.numEntries) = true)
    (hlt : lexLt b.rep.lastKey k = true) :
    (∃ hdl, (ctbAdd cfg b k v).rep.indexEntries
        = b.rep.indexEntries ++
          [(findShortestSeparator b.rep.lastKey k, hdl)]) ∧
    lexLe b.rep.lastKey (findShortestSeparator b.rep.lastKey k) = true ∧
    lexLt (findShortestSeparator b.rep.lastKey k) k = true ∧
    (findShortestSeparator b.rep.lastKey k).length ≤ b.rep.lastKey.length ∧
    lexLe b.rep.lastKey (findShortSuccessor b.rep.lastKey) = true ∧
    (findShortSuccessor b.rep.lastKey).length ≤ b.rep.lastKey.length := by
  obtain ⟨hdl, hidx⟩ := ctbAddMain_indexEntries_of_flush cfg b k hok hw hpol
  refine ⟨⟨hdl, ?_⟩, findShortestSeparator_ge _ _,
    findShortestSeparator_lt _ _ hlt, findShortestSeparator_length _ _,
    findShortSuccessor_ge _, findShortSuccessor_length _⟩
  unfold ctbAdd
  rw [if_pos hok, addInSub_rep_indexEntries, hidx]

/-- Witness for C4 at a concrete sealing `Add`. -/
theorem c4_witness :
    (∃ hdl, (ctbAdd cfgF bAfterOneF [2] [9]).rep.indexEntries
        = bAfterOneF.rep.indexEntries ++
          [(findShortestSeparator bAfterOneF.rep.lastKey [2], hdl)]) ∧
    lexLe bAfterOneF.rep.lastKey
        (findShortestSeparator bAfterOneF.rep.lastKey [2]) = true ∧
    lexLt (findShortestSeparator bAfterOneF.rep.lastKey [2]) [2] = true ∧
    (findShortestSeparator bAfterOneF.rep.lastKey [2]).length
        ≤ bAfterOneF.rep.lastKey.length ∧
    lexLe bAfterOneF.rep.lastKey
        (findShortSuccessor bAfterOneF.rep.lastKey) = true ∧
    (findShortSuccessor bAfterOneF.rep.lastKey).length
        ≤ bAfterOneF.rep.lastKey.length :=
  c4_shortest_separator_index cfgF bAfterOneF [2] [9]
    (by decide) (by decide) (by decide) (by decide)

/-- C5: on a builder whose subcolumn builders exist, an `Add` whose split
is non-empty but of the wrong arity latches `InvalidArgument` and writes
nothing to any subcolumn builder, while an `Add` whose split is empty
appends an empty value (keyed by the row position) to every subcolumn and
still advances all row counters. -/
theorem c5_splitter_arity (cfg : TableConfig) (b : CTBuilder) (k v : List Nat)
    (hok : ctbOk b = true) (hsubs : b.subBuilders.isEmpty = false) :
    ((cfg.split v ≠ [] ∧ (cfg.split v).length ≠ cfg.columnCount) →
      (ctbAdd cfg b k v).rep.status
          = Status.invalidArgument "table_options.column_count" ∧
      (ctbAdd cfg b k v).subBuilders = b.subBuilders) ∧
    (cfg.split v = [] →
      (ctbAdd cfg b k v).subBuilders.map (fun r => r.written)
        = b.subBuilders.map
            (fun r => r.written ++ [(putFixed64BE b.rep.numEntries, [])]) ∧
      (ctbAdd cfg b k v).subBuilders.map (fun r => r.numEntries)
        = b.subBuilders.map (fun r => r.numEntries + 1) ∧
      (ctbAdd cfg b k v).rep.numEntries = b.rep.numEntries + 1) := by
  have hBS : (ctbAddMain cfg b k).subBuilders = b.subBuilders := by
    rw [ctbAddMain_subBuilders, hsubs]
    simp
  have hsubs_ok : ∀ s ∈ b.subBuilders, s.status.isOk = true :=
    ((ctbOk_iff b).mp hok).2
  unfold ctbAdd
  rw [if_pos hok]
  constructor
  · intro har
    rw [addInSub_arity cfg _ _ _ har.1 har.2]
    exact ⟨rfl, hBS⟩
  · intro hempty
    have hnar : ¬(cfg.split v ≠ [] ∧ (cfg.split v).length ≠ cfg.columnCount) := by
      intro hcon
      exact hcon.1 hempty
    rw [addInSub_no_arity cfg _ _ _ hnar]
    have hpair : pairSubs (ctbAddMain cfg b k).subBuilders (cfg.split v)
        = b.subBuilders.map (fun r => (r, ([] : List Nat))) := by
      unfold pairSubs
      rw [hBS, hempty]
      simp
    have hstat : ∀ p ∈ b.subBuilders.map (fun r => (r, ([] : List Nat))),
        p.1.status.isOk = true := by
      intro p hp
      obtain ⟨r, hr, rfl⟩ := List.mem_map.mp hp
      exact hsubs_ok r hr
    have hspec := addSubsLoop_spec cfg (putFixed64BE b.rep.numEntries)
      (b.subBuilders.map (fun r => (r, ([] : List Nat)))) hstat
    rw [hpair]
    refine ⟨?_, ?_, ?_⟩
    · apply List.ext_getElem
      · simp [hspec.1]
      · intro i h1 h2
        simp only [List.length_map] at h1 h2
        have hi : i < (b.subBuilders.map
            (fun r => (r, ([] : List Nat)))).length := by
          simp only [List.length_map]
          exact h2
        have hiv := (hspec.2 i hi).1
        rw [List.getD_eq_getElem _ _ (by simpa [hspec.1, List.length_map] using h2),
          List.getD_eq_getElem _ _ hi] at hiv
        simp only [List.getElem_map] at hiv ⊢
        exact hiv
    · apply List.ext_getElem
      · simp [hspec.1]
      · intro i h1 h2
        simp only [List.length_map] at h1 h2
        have hi : i < (b.subBuilders.map
            (fun r => (r, ([] : List Nat)))).length := by
          simp only [List.length_map]
          exact h2
        have hiv := (hspec.2 i hi).2
        rw [List.getD_eq_getElem _ _ (by simpa [hspec.1, List.length_map] using h2),
          List.getD_eq_getElem _ _ hi] at hiv
        simp only [List.getElem_map] at hiv ⊢
        exact hiv
    · have hrn : ∀ x : CTBuilder, ∀ subs2 : List BuilderRep,
          ({ x with subBuilders := subs2 } : CTBuilder).rep.numEntries
            = x.rep.numEntries := fun x subs2 => rfl
      rw [hrn, ctbAddMain_rep_numEntries]

/-- Witness for C5 at a concrete builder state with created subcolumns. -/
theorem c5_witness :
    ((cfgW.split [9] ≠ [] ∧ (cfgW.split [9]).length ≠ cfgW.columnCount) →
      (ctbAdd cfgW bAfterOneW [2] [9]).rep.status
          = Status.invalidArgument "table_options.column_count" ∧
      (ctbAdd cfgW bAfterOneW [2] [9]).subBuilders = bAfterOneW.subBuilders) ∧
    (cfgW.split [9] = [] →
      (ctbAdd cfgW bAfterOneW [2] [9]).subBuilders.map (fun r => r.written)
        = bAfterOneW.subBuilders.map
            (fun r => r.written ++ [(putFixed64BE bAfterOneW.rep.numEntries, [])]) ∧
      (ctbAdd cfgW bAfterOneW [2] [9]).subBuilders.map (fun r => r.numEntries)
        = bAfterOneW.subBuilders.map (fun r => r.numEntries + 1) ∧
      (ctbAdd cfgW bAfterOneW [2] [9]).rep.numEntries
          = bAfterOneW.rep.numEntries + 1) :=
  c5_splitter_arity cfgW bAfterOneW [2] [9] (by decide) (by decide)

/-- C6: once the main builder's status has latched a failure (while its
subcolumn builders are healthy), `Add` and `Flush` are exact no-ops
(touching no bytes, offsets, counters, keys, or pending blocks), `status()`
reports the latched status, and `Finish()` returns it. -/
theorem c6_sticky_status (cfg : TableConfig) (b : CTBuilder) (k v : List Nat)
    (hbad : b.rep.status.isOk = false)
    (hsubs : ∀ s ∈ b.subBuilders, s.status.isOk = true ∧ s.file.writeOk = true) :
    ctbAdd cfg b k v = b ∧
    mainFlush cfg b = b ∧
    ctbStatus b = b.rep.status ∧
    (ctbFinish cfg b).2 = b.rep.status := by
  have hst : ctbStatus b = b.rep.status :=
    ctbStatusAux_all_ok b.rep b.subBuilders (fun s hs => (hsubs s hs).1)
  have hnok : ctbOk b = false := by
    unfold ctbOk
    rw [hst, hbad]
  exact ⟨ctbAdd_not_ok cfg b k v hnok, mainFlush_not_ok cfg b hnok, hst,
    ctbFinish_status_of_main_bad cfg b hbad hsubs⟩

/-- Witness for C6 at a latched builder state. -/
theorem c6_witness :
    ctbAdd cfgW bC6 [1] [2] = bC6 ∧
    mainFlush cfgW bC6 = bC6 ∧
    ctbStatus bC6 = bC6.rep.status ∧
    (ctbFinish cfgW bC6).2 = bC6.rep.status :=
  c6_sticky_status cfgW bC6 [1] [2] (by decide) (by decide)

/-- C7 counterexample: with a failed first subcolumn builder and a healthy
second one, `Finish` returns the first failing status but the healthy
subcolumn is neither finished nor synced nor closed — refuting the claim
that every subcolumn file whose status is OK is synced and closed. -/
theorem c7_counterexample :
    (ctbFinish cfgW bC7).2 = Status.ioError "Append" ∧
    ((ctbFinish cfgW bC7).1.subBuilders.getD 1 dRep).status = Status.ok ∧
    ((ctbFinish cfgW bC7).1.subBuilders.getD 1 dRep).file.synced = false ∧
    ((ctbFinish cfgW bC7).1.subBuilders.getD 1 dRep).file.closed = false ∧
    ((ctbFinish cfgW bC7).1.subBuilders.getD 1 dRep).closed = false := by
  decide

/-- C7 (amended): `Finish` on a main builder never syncs or closes the
main file (first two conjuncts, unconditional). When every subcolumn
builder is healthy, all of them are finished first (each remaining a
non-main builder, emitting its own blocks and footer), every subcolumn
file is synced and closed, and `Finish` returns the main builder's own
status. When the `f`-th subcolumn's `Finish` is the first to fail,
`Finish` returns that failing status immediately: the subcolumns before
`f` have been finished with status OK, the failing one is marked closed,
the subcolumns after `f` are left untouched, and no subcolumn file — not
even an already-finished OK one — has its sync or close flags changed by
this call. -/
theorem c7_finish_subcolumns_amended (cfg : TableConfig) (b : CTBuilder) :
    (ctbFinish cfg b).1.rep.file.synced = b.rep.file.synced ∧
    (ctbFinish cfg b).1.rep.file.closed = b.rep.file.closed ∧
    ((∀ s ∈ b.subBuilders, s.status.isOk = true ∧ s.file.writeOk = true) →
      (∀ s ∈ b.subBuilders, s.mainColumn = false) →
      (∀ s ∈ (ctbFinish cfg b).1.subBuilders,
          s.closed = true ∧ s.status = Status.ok ∧ s.mainColumn = false ∧
          s.file.synced = true ∧ s.file.closed = true) ∧
      (ctbFinish cfg b).2 = (ctbFinish cfg b).1.rep.status) ∧
    (∀ f, f < b.subBuilders.length →
      (∀ s ∈ b.subBuilders.take f,
          s.status.isOk = true ∧ s.file.writeOk = true) →
      (subFinish cfg (b.subBuilders.getD f dRep)).status.isOk = false →
      (ctbFinish cfg b).2 = (subFinish cfg (b.subBuilders.getD f dRep)).status ∧
      (ctbFinish cfg b).1.subBuilders
        = (b.subBuilders.take f).map (subFinish cfg)
            ++ subFinish cfg (b.subBuilders.getD f dRep)
              :: b.subBuilders.drop (f + 1) ∧
      (∀ s ∈ (b.subBuilders.take f).map (subFinish cfg),
          s.closed = true ∧ s.status = Status.ok) ∧
      (subFinish cfg (b.subBuilders.getD f dRep)).closed = true ∧
      (∀ s ∈ (ctbFinish cfg b).1.subBuilders, ∃ x ∈ b.subBuilders,
          s.file.synced = x.file.synced ∧ s.file.closed = x.file.closed)) := by
  have hflags : (ctbFinish cfg b).1.rep.file.synced = b.rep.file.synced ∧
      (ctbFinish cfg b).1.rep.file.closed = b.rep.file.closed := by
    unfold ctbFinish
    rcases finishSubsLoop cfg b.subBuilders with ⟨subs2, e⟩
    cases e with
    | none =>
      dsimp only
      constructor <;> (split_ifs <;> simp)
    | some err => exact ⟨rfl, rfl⟩
  refine ⟨hflags.1, hflags.2, ?_, ?_⟩
  · intro hsubs hmc
    obtain ⟨hA, _, _, hD⟩ := ctbFinish_of_ok_subs cfg b hsubs
    refine ⟨?_, hD⟩
    intro s hs
    obtain ⟨d1, d2, d3, d4, x, hx, hxm⟩ := hA s hs
    exact ⟨d1, d2, by rw [hxm]; exact hmc x hx, d3, d4⟩
  · intro f hf hok hfail
    have hchar := ctbFinish_fail cfg b f hf hok hfail
    refine ⟨by rw [hchar], by rw [hchar], ?_, subFinish_closed cfg _, ?_⟩
    · intro s hs
      obtain ⟨x, hx, rfl⟩ := List.mem_map.mp hs
      obtain ⟨hxs, _, hxc, _, _, _⟩ := subFinish_ok cfg x (hok x hx).1 (hok x hx).2
      exact ⟨hxc, hxs⟩
    · intro s hs
      rw [hchar] at hs
      dsimp only at hs
      rcases List.mem_append.mp hs with hsl | hsr
      · obtain ⟨x, hx, rfl⟩ := List.mem_map.mp hsl
        exact ⟨x, List.take_subset f b.subBuilders hx,
          subFinish_synced cfg x, subFinish_fileClosed cfg x⟩
      · rcases List.mem_cons.mp hsr with hfirst | htail
        · refine ⟨b.subBuilders.getD f dRep, ?_, ?_, ?_⟩
          · rw [List.getD_eq_getElem _ _ hf]
            exact List.getElem_mem _
          · rw [hfirst]
            exact subFinish_synced cfg _
          · rw [hfirst]
            exact subFinish_fileClosed cfg _
        · exact ⟨s, List.drop_subset (f + 1) b.subBuilders htail, rfl, rfl⟩

/-- Witness for the amended C7: at a concrete healthy builder, the all-OK
branch's hypotheses are discharged and its conclusions hold. -/
theorem c7_witness :
    (∀ s ∈ (ctbFinish cfgW bC7ok).1.subBuilders,
        s.closed = true ∧ s.status = Status.ok ∧ s.mainColumn = false ∧
        s.file.synced = true ∧ s.file.closed = true) ∧
    (ctbFinish cfgW bC7ok).2 = (ctbFinish cfgW bC7ok).1.rep.status :=
  (c7_finish_subcolumns_amended cfgW bC7ok).2.2.1 (by decide) (by decide)

/-- C8: a successful `WriteRawBlock` appends the block body followed by the
5-byte trailer — the compression-type byte and the 4-byte little-endian
masked CRC32C of body-then-type — advances the offset by body size plus 5,
and records the pre-write offset and body size in the returned handle. -/
theorem c8_block_trailer (r : BuilderRep) (contents : List Nat) (ctype : Nat)
    (hw : r.file.writeOk = true) :
    (writeRawBlock r contents ctype).1.file.bytes
        = r.file.bytes ++ contents ++
          ctype :: encodeFixed32LE (maskCrc (crc32cValue (contents ++ [ctype]))) ∧
    (writeRawBlock r contents ctype).1.offset
        = r.offset + contents.length + 5 ∧
    (writeRawBlock r contents ctype).2 = ⟨r.offset, contents.length⟩ := by
  rw [writeRawBlock_of_writeOk r contents ctype hw]
  refine ⟨?_, rfl, rfl⟩
  rw [crc32cValue_append]

/-- Witness for C8 at a concrete block body. -/
theorem c8_witness :
    (writeRawBlock (initRep true true) [7, 8] 0).1.file.bytes
        = (initRep true true).file.bytes ++ [7, 8] ++
          0 :: encodeFixed32LE (maskCrc (crc32cValue ([7, 8] ++ [0]))) ∧
    (writeRawBlock (initRep true true) [7, 8] 0).1.offset
        = (initRep true true).offset + [7, 8].length + 5 ∧
    (writeRawBlock (initRep true true) [7, 8] 0).2
        = ⟨(initRep true true).offset, [7, 8].length⟩ :=
  c8_block_trailer (initRep true true) [7, 8] 0 (by decide)

/-- C9 counterexample: after `SeekToFirst` and one `Next` on a one-child
iterator, `cur_` is past the end and `Valid()` dereferences
`children_[cur_]` out of bounds (modelled as `none`) instead of returning
false. -/
theorem c9_counterexample :
    fileIterValid (fileIterNext (fileIterSeekToFirst ⟨[⟨true⟩], 0⟩)) = none ∧
    (none : Option Bool) ≠ some false := by
  decide

/-- C9 (amended): `SeekToFirst` positions the index at 0 on a non-empty
children vector, `Next` advances the index by one, `Valid()` is false on an
empty vector and reflects the current child's validity while the index is
in bounds; once the index passes the last child of a non-empty vector,
`Valid()` performs an out-of-bounds access (`none`) — the caller must not
rely on it returning false. -/
theorem c9_fileiter_amended (it : FileIterState) :
    (it.children = [] → fileIterValid it = some false) ∧
    (it.children ≠ [] → (fileIterSeekToFirst it).cur = 0) ∧
    (fileIterNext it).cur = it.cur + 1 ∧
    (it.cur < it.children.length →
      fileIterValid it = some ((it.children.getD it.cur ⟨false⟩).valid)) ∧
    (it.children ≠ [] → it.children.length ≤ it.cur →
      fileIterValid it = none) := by
  refine ⟨?_, ?_, rfl, ?_, ?_⟩
  · intro h
    simp [fileIterValid, h]
  · intro h
    simp [fileIterSeekToFirst, List.isEmpty_iff, h]
  · intro h
    have hne : it.children ≠ [] := by
      intro hh
      rw [hh] at h
      simp at h
    unfold fileIterValid
    rw [if_neg (by simpa [List.isEmpty_iff] using hne)]
    rw [List.get?_eq_get h]
    rw [List.getD_eq_getElem _ _ h]
    simp
  · intro hne hlen
    unfold fileIterValid
    rw [if_neg (by simpa [List.isEmpty_iff] using hne)]
    rw [List.get?_eq_none.mpr hlen]
    rfl

/-- Witness for the amended C9 at a concrete two-child iterator. -/
theorem c9_witness :
    (FileIterState.children ⟨[⟨true⟩, ⟨false⟩], 0⟩ = [] →
      fileIterValid ⟨[⟨true⟩, ⟨false⟩], 0⟩ = some false) ∧
    (FileIterState.children ⟨[⟨true⟩, ⟨false⟩], 0⟩ ≠ [] →
      (fileIterSeekToFirst ⟨[⟨true⟩, ⟨false⟩], 0⟩).cur = 0) ∧
    (fileIterNext ⟨[⟨true⟩, ⟨false⟩], 0⟩).cur
        = FileIterState.cur ⟨[⟨true⟩, ⟨false⟩], 0⟩ + 1 ∧
    (FileIterState.cur ⟨[⟨true⟩, ⟨false⟩], 0⟩
        < (FileIterState.children ⟨[⟨true⟩, ⟨false⟩], 0⟩).length →
      fileIterValid ⟨[⟨true⟩, ⟨false⟩], 0⟩
        = some (((FileIterState.children ⟨[⟨true⟩, ⟨false⟩], 0⟩).getD
            (FileIterState.cur ⟨[⟨true⟩, ⟨false⟩], 0⟩) ⟨false⟩).valid)) ∧
    (FileIterState.children ⟨[⟨true⟩, ⟨false⟩], 0⟩ ≠ [] →
      (FileIterState.children ⟨[⟨true⟩, ⟨false⟩], 0⟩).length
          ≤ FileIterState.cur ⟨[⟨true⟩, ⟨false⟩], 0⟩ →
      fileIterValid ⟨[⟨true⟩, ⟨false⟩], 0⟩ = none) :=
  c9_fileiter_amended ⟨[⟨true⟩, ⟨false⟩], 0⟩

/-- C10: `Flush` on a builder whose status is OK and whose pending data
block is empty is an exact no-op: no bytes are written and the offset,
block counters, data size, and pending index handle are all unchanged. -/
theorem c10_flush_empty_noop (cfg : TableConfig) (b : CTBuilder)
    (hok : ctbOk b = true) (hemp : b.rep.dataBlock = []) :
    mainFlush cfg b = b := by
  unfold mainFlush
  rw [if_pos hok]
  unfold flushCore
  rw [if_pos (by simp [hemp])]

/-- Witness for C10 at a fresh builder. -/
theorem c10_witness : mainFlush cfgW (initBuilder true) = initBuilder true :=
  c10_flush_empty_noop cfgW (initBuilder true) (by decide) (by decide)

end Vidardb
